import Mathlib

/-!
Verification of the StockPulse analyst-prediction pipeline
(`app/services/prediction_service.py`, `app/repositories/prediction_repository.py`,
`app/models/db_models.py`) against its natural-language specification.

Python floats are modelled as rationals (`ℚ`), dates as integer day ordinals
(`ℤ`), nullable columns as `Option`, and the database as in-memory lists of
rows.  Every definition below is translated from the source files named in its
doc comment.
-/

set_option autoImplicit false

namespace StockPulse

/-- A dynamically-typed provider value as it appears in raw provider rows:
Python `None`, a string, or a number (float/int, modelled as `ℚ`). -/
inductive PyVal where
  | none
  | str (s : String)
  | num (q : ℚ)
deriving DecidableEq

/-- Python truthiness for the values in `PyVal`: `None`, `""` and `0` are
falsy, everything else truthy. -/
def pyTruthy : PyVal → Bool
  | PyVal.none => false
  | PyVal.str s => !(s == "")
  | PyVal.num q => !(q == 0)

/-- Python `a or b`: `a` when truthy, else `b`. -/
def pyOr (a b : PyVal) : PyVal := if pyTruthy a then a else b

/-- Python `str(v)` on the values of `PyVal`. -/
def pyStr : PyVal → String
  | PyVal.none => "None"
  | PyVal.str s => s
  | PyVal.num q => toString q

/-- Storing a `PyVal` into a nullable string column. -/
def pyToOptStr : PyVal → Option String
  | PyVal.none => Option.none
  | PyVal.str s => some s
  | PyVal.num q => some (toString q)

/-- Python `s.strip()` on the character list: drop whitespace from both
ends. -/
def stripChars (cs : List Char) : List Char :=
  ((cs.dropWhile Char.isWhitespace).reverse.dropWhile Char.isWhitespace).reverse

/-- Python `s.strip()`. -/
def pyStrip (s : String) : String := String.mk (stripChars s.data)

/-- Python `s.replace(c, "")` for a one-character pattern: remove every
occurrence of that character. -/
def removeChar (c : Char) (s : String) : String :=
  String.mk (s.data.filter (fun x => !(x == c)))

/-- Python `s.casefold()` on the provider's firm names: per-character
lowercasing. -/
def casefold (s : String) : String := String.mk (s.data.map Char.toLower)

/-- The numeric value of a decimal digit character, if it is one. -/
def charDigit (c : Char) : Option Nat :=
  if c.isDigit then some (c.toNat - 48) else Option.none

/-- Split off the longest leading run of decimal digits. -/
def takeDigits : List Char → List Nat × List Char
  | [] => ([], [])
  | c :: cs =>
    match charDigit c with
    | some d =>
      let (ds, rest) := takeDigits cs
      (d :: ds, rest)
    | Option.none => ([], c :: cs)

/-- The natural number denoted by a list of decimal digits. -/
def natOfDigits (ds : List Nat) : Nat := ds.foldl (fun a d => a * 10 + d) 0

/-- Parse an optional leading sign; returns `true` when negative. -/
def parseSign : List Char → Bool × List Char
  | '+' :: cs => (false, cs)
  | '-' :: cs => (true, cs)
  | cs => (false, cs)

/-- Parse the mantissa of a Python float literal:
`digits`, `digits.digits`, `digits.` or `.digits`. -/
def parseMantissa (cs : List Char) : Option (ℚ × List Char) :=
  let (ip, rest) := takeDigits cs
  match rest with
  | '.' :: rest2 =>
    let (fp, rest3) := takeDigits rest2
    if ip.isEmpty && fp.isEmpty then Option.none
    else some ((natOfDigits ip : ℚ) + (natOfDigits fp : ℚ) / ((10 : ℚ) ^ fp.length), rest3)
  | _ =>
    if ip.isEmpty then Option.none else some ((natOfDigits ip : ℚ), rest)

/-- Parse the exponent part (after `e`/`E`) of a float literal; it must
consume the whole remaining input. -/
def parseExponent (cs : List Char) : Option Int :=
  let (neg, cs1) := parseSign cs
  let (ds, rest) := takeDigits cs1
  if ds.isEmpty || !rest.isEmpty then Option.none
  else some (if neg then -(natOfDigits ds : Int) else (natOfDigits ds : Int))

/-- Python `float(text)` on a finite decimal literal, as a rational:
optional sign, mantissa, optional exponent.  (Floats are modelled as
rationals, so only finite numeric literals denote values.) -/
def parseFloat (cs : List Char) : Option ℚ :=
  let (neg, cs1) := parseSign cs
  match parseMantissa cs1 with
  | Option.none => Option.none
  | some (m, rest) =>
    let v : ℚ := if neg then -m else m
    match rest with
    | [] => some v
    | c :: rest2 =>
      if c = 'e' ∨ c = 'E' then
        match parseExponent rest2 with
        | some k => some (v * (10 : ℚ) ^ k)
        | Option.none => Option.none
      else Option.none

/-- Embeds `_to_float` (prediction_service.py): `None` stays `None`; the
value is rendered with `str`, `$` and `,` are removed, the result is
stripped; empty means `None`, otherwise `float(...)` parsing is attempted.
A numeric value round-trips through `str`/`float` unchanged, so the
`num` case returns the number itself. -/
def _to_float : PyVal → Option ℚ
  | PyVal.none => Option.none
  | PyVal.num q => some q
  | PyVal.str s =>
    let text := pyStrip (removeChar ',' (removeChar '$' s))
    if text = "" then Option.none else parseFloat text.data

/-- Parse a Python `int(text)` literal: optional sign then digits,
consuming the whole stripped input. -/
def parseIntLit (cs : List Char) : Option Int :=
  let (neg, cs1) := parseSign cs
  let (ds, rest) := takeDigits cs1
  if ds.isEmpty || !rest.isEmpty then Option.none
  else some (if neg then -(natOfDigits ds : Int) else (natOfDigits ds : Int))

/-- Embeds `_to_int` (prediction_service.py): `int(value)`, `None` on
failure.  `int` of a number truncates toward zero. -/
def _to_int : PyVal → Option Int
  | PyVal.none => Option.none
  | PyVal.num q => some (q.num / (q.den : Int))
  | PyVal.str s => parseIntLit (pyStrip s).data

/-! ### Data model (`app/models/db_models.py`)

Dates are integer day ordinals, so `snapshot_date + 365` embeds
`snapshot_date + timedelta(days=365)`.  The server-generated surrogate `id`
and `created_at` columns are not part of the model: no pipeline logic reads
them. -/

/-- Embeds the `analyst_snapshots` table row (`AnalystSnapshot`). -/
structure AnalystSnapshot where
  ticker : String
  snapshot_date : Int
  firm : String
  analyst_name : Option String
  action : Option String
  rating : String
  price_target : Option ℚ
  current_price : ℚ
  implied_return : Option ℚ
  target_date : Int
  actual_price_at_target : Option ℚ
  actual_return : Option ℚ
  prediction_error : Option ℚ
  is_directionally_correct : Option Bool
  is_backfilled : Bool
  is_unresolvable : Bool
  source : String
deriving DecidableEq

/-- Embeds the `consensus_snapshots` table row (`ConsensusSnapshot`). -/
structure ConsensusSnapshot where
  ticker : String
  snapshot_date : Int
  target_low : Option ℚ
  target_avg : Option ℚ
  target_median : Option ℚ
  target_high : Option ℚ
  analyst_count : Option Int
  consensus_rating : Option String
  current_price : ℚ
  implied_upside : Option ℚ
  target_date : Int
  actual_price_at_target : Option ℚ
  consensus_was_correct : Option Bool
  source : String
deriving DecidableEq

/-- Embeds the `analyst_scores` table row (`AnalystScore`).  `ticker = none`
is the global (all-tickers) row for a firm.  `last_updated` is not modelled
(wall-clock timestamp). -/
structure AnalystScore where
  firm : String
  ticker : Option String
  total_predictions : Nat
  success_rate : Option ℚ
  avg_return_error : Option ℚ
  avg_absolute_error : Option ℚ
  directional_accuracy : Option ℚ
  composite_score : Option ℚ
  best_call_ticker : Option String
  worst_call_ticker : Option String
deriving DecidableEq

/-- The database state seen by the pipeline: the two snapshot tables.
(The `analyst_scores` table is rebuilt from scratch by `recompute_scores`,
which is modelled as a pure function of this state.) -/
structure Db where
  analyst : List AnalystSnapshot
  consensus : List ConsensusSnapshot
deriving DecidableEq

/-- The empty database. -/
def Db.empty : Db := ⟨[], []⟩

/-! ### Repository queries (`app/repositories/prediction_repository.py`) -/

/-- Row filter of `get_analyst_snapshot`: match on (ticker, snapshot_date,
firm). -/
def analystKeyMatch (ticker : String) (snapshot_date : Int) (firm : String)
    (r : AnalystSnapshot) : Bool :=
  r.ticker == ticker && r.snapshot_date == snapshot_date && r.firm == firm

/-- Embeds `get_analyst_snapshot`: the first row with the given (ticker,
snapshot_date, firm), if any. -/
def get_analyst_snapshot (db : Db) (ticker : String) (snapshot_date : Int)
    (firm : String) : Option AnalystSnapshot :=
  db.analyst.find? (analystKeyMatch ticker snapshot_date firm)

/-- Row filter of `get_consensus_snapshot`: match on (ticker,
snapshot_date). -/
def consensusKeyMatch (ticker : String) (snapshot_date : Int)
    (r : ConsensusSnapshot) : Bool :=
  r.ticker == ticker && r.snapshot_date == snapshot_date

/-- Embeds `get_consensus_snapshot`. -/
def get_consensus_snapshot (db : Db) (ticker : String) (snapshot_date : Int) :
    Option ConsensusSnapshot :=
  db.consensus.find? (consensusKeyMatch ticker snapshot_date)

/-- The `WHERE` clause of `list_pending_analyst_snapshots`:
`target_date <= reference_date`, outcome still null, not unresolvable,
not backfilled, `price_target` not null. -/
def pendingAnalystPred (reference_date : Int) (r : AnalystSnapshot) : Bool :=
  decide (r.target_date ≤ reference_date)
    && r.actual_price_at_target.isNone
    && !r.is_unresolvable
    && !r.is_backfilled
    && r.price_target.isSome

/-- Embeds `list_pending_analyst_snapshots`. -/
def list_pending_analyst_snapshots (db : Db) (reference_date : Int) :
    List AnalystSnapshot :=
  db.analyst.filter (pendingAnalystPred reference_date)

/-- The `WHERE` clause of `list_pending_consensus_snapshots`. -/
def pendingConsensusPred (reference_date : Int) (r : ConsensusSnapshot) : Bool :=
  decide (r.target_date ≤ reference_date) && r.actual_price_at_target.isNone

/-- Embeds `list_pending_consensus_snapshots`. -/
def list_pending_consensus_snapshots (db : Db) (reference_date : Int) :
    List ConsensusSnapshot :=
  db.consensus.filter (pendingConsensusPred reference_date)

/-- The `WHERE` clause of `list_resolved_analyst_snapshots`: outcome
present, `price_target` and `prediction_error` not null, not unresolvable,
not backfilled. -/
def resolvedAnalystPred (r : AnalystSnapshot) : Bool :=
  r.actual_price_at_target.isSome
    && r.price_target.isSome
    && r.prediction_error.isSome
    && !r.is_unresolvable
    && !r.is_backfilled

/-- Embeds `list_resolved_analyst_snapshots`. -/
def list_resolved_analyst_snapshots (db : Db) : List AnalystSnapshot :=
  db.analyst.filter resolvedAnalystPred

/-! ### Scoring policy (static methods of `PredictionSnapshotService`) -/

/-- Embeds `ScoreConfig` (prediction_service.py): the fixed scoring policy
constants. -/
structure ScoreConfig where
  success_threshold : ℚ := 0.10
  min_predictions : Nat := 5
deriving DecidableEq

/-- The default `ScoreConfig()`. -/
def defaultScoreConfig : ScoreConfig := {}

/-- Embeds `compute_predicted_return`: `(price_target − current_price) /
current_price`, and `0.0` when the target is `None` or the price is `0`. -/
def compute_predicted_return (price_target : Option ℚ) (current_price : ℚ) : ℚ :=
  match price_target with
  | Option.none => 0
  | some pt => if current_price = 0 then 0 else (pt - current_price) / current_price

/-- Embeds `compute_actual_return`: `(actual_price − current_price) /
current_price`, and `0.0` when the price is `0`. -/
def compute_actual_return (actual_price : ℚ) (current_price : ℚ) : ℚ :=
  if current_price = 0 then 0 else (actual_price - current_price) / current_price

/-- Embeds `is_directionally_correct`: both returns strictly positive, both
strictly negative, or both exactly zero. -/
def is_directionally_correct (predicted_return actual_return : ℚ) : Bool :=
  (decide (predicted_return > 0) && decide (actual_return > 0))
    || (decide (predicted_return < 0) && decide (actual_return < 0))
    || (decide (predicted_return = 0) && decide (actual_return = 0))

/-- Embeds `composite_score`: `0.4*success_rate + 0.3*directional_accuracy +
0.3*(1 − avg_absolute_error)` clamped into `[0, 1]` via
`max(0.0, min(1.0, score))`. -/
def composite_score (success_rate directional_accuracy avg_absolute_error : ℚ) : ℚ :=
  let score : ℚ :=
    (0.4 : ℚ) * success_rate + (0.3 : ℚ) * directional_accuracy
      + (0.3 : ℚ) * (1 - avg_absolute_error)
  max 0 (min 1 score)

/-- The spec's wording of clamping a value to the interval `[lo, hi]`. -/
def clampedToInterval (lo hi x : ℚ) : ℚ :=
  if x < lo then lo else if x > hi then hi else x

/-! ### Capture stage (`_snapshot_analyst_ratings`, `_snapshot_consensus`) -/

/-- A raw analyst-rating row from the finviz provider
(`get_analyst_ratings`): a dict with these keys.  (The service skips raw
entries that are not dicts; those cannot be represented here.) -/
structure RawRating where
  firm : PyVal
  analyst_name : PyVal
  action : PyVal
  rating : PyVal
  price_target : PyVal
deriving DecidableEq

/-- `str(row.get("firm") or row.get("analyst_name") or "").strip()`. -/
def rawFirm (row : RawRating) : String :=
  pyStrip (pyStr (pyOr (pyOr row.firm row.analyst_name) (PyVal.str "")))

/-- Replace the first element satisfying `p` by its image under `f`
(in-place row update in a table). -/
def updateFirst {α : Type} (p : α → Bool) (f : α → α) : List α → List α
  | [] => []
  | x :: xs => if p x then f x :: xs else x :: updateFirst p f xs

/-- One step of the firm-deduplication loop in `_snapshot_analyst_ratings`:
skip rows without a firm; key by `firm.casefold()`; keep the first row for
a key unless it lacks a usable price target and the new row has one. -/
def dedupeStep (acc : List (String × RawRating)) (row : RawRating) :
    List (String × RawRating) :=
  let firm := rawFirm row
  if firm == "" then acc
  else
    let key := casefold firm
    match acc.find? (fun e => e.1 == key) with
    | Option.none => acc ++ [(key, { row with firm := PyVal.str firm })]
    | some e =>
      if (_to_float e.2.price_target).isNone && (_to_float row.price_target).isSome then
        updateFirst (fun e2 => e2.1 == key)
          (fun _ => (key, { row with firm := PyVal.str firm })) acc
      else acc

/-- The `deduped_rows` dict of `_snapshot_analyst_ratings`, as an
insertion-ordered association list keyed by the casefolded firm. -/
def dedupeRatings (ratings : List RawRating) : List (String × RawRating) :=
  ratings.foldl dedupeStep []

/-- `compute_predicted_return(price_target, current_price) if price_target
is not None else None` — used for `implied_return` / `implied_upside`. -/
def impliedOf (price_target : Option ℚ) (current_price : ℚ) : Option ℚ :=
  match price_target with
  | some pt => some (compute_predicted_return (some pt) current_price)
  | Option.none => Option.none

/-- The field assignments performed on an existing `AnalystSnapshot` row in
the update branch of the upsert (outcome fields and flags untouched). -/
def applyAnalystUpdate (current_price : ℚ) (target_date : Int) (row : RawRating)
    (r : AnalystSnapshot) : AnalystSnapshot :=
  let price_target := _to_float row.price_target
  { r with
    analyst_name := pyToOptStr row.analyst_name
    action := pyToOptStr row.action
    rating := pyStr (pyOr row.rating (PyVal.str "N/A"))
    price_target := price_target
    current_price := current_price
    implied_return := impliedOf price_target current_price
    target_date := target_date
    source := "finvizfinance" }

/-- The fresh `AnalystSnapshot` inserted when no row exists for the key. -/
def newAnalystRow (ticker : String) (snapshot_date : Int) (firm : String)
    (current_price : ℚ) (target_date : Int) (row : RawRating) : AnalystSnapshot :=
  let price_target := _to_float row.price_target
  { ticker := ticker
    snapshot_date := snapshot_date
    firm := firm
    analyst_name := pyToOptStr row.analyst_name
    action := pyToOptStr row.action
    rating := pyStr (pyOr row.rating (PyVal.str "N/A"))
    price_target := price_target
    current_price := current_price
    implied_return := impliedOf price_target current_price
    target_date := target_date
    actual_price_at_target := Option.none
    actual_return := Option.none
    prediction_error := Option.none
    is_directionally_correct := Option.none
    is_backfilled := false
    is_unresolvable := false
    source := "finvizfinance" }

/-- The per-firm upsert in the second loop of `_snapshot_analyst_ratings`:
`firm = str(row.get("firm") or "Unknown")`, `target_date = snapshot_date +
365 days`; update the existing (ticker, date, firm) row in place, else
insert a new one. -/
def upsertAnalystRow (ticker : String) (snapshot_date : Int) (current_price : ℚ)
    (l : List AnalystSnapshot) (row : RawRating) : List AnalystSnapshot :=
  let firm := pyStr (pyOr row.firm (PyVal.str "Unknown"))
  let target_date := snapshot_date + 365
  match l.find? (analystKeyMatch ticker snapshot_date firm) with
  | some _ =>
    updateFirst (analystKeyMatch ticker snapshot_date firm)
      (applyAnalystUpdate current_price target_date row) l
  | Option.none =>
    l ++ [newAnalystRow ticker snapshot_date firm current_price target_date row]

/-- Embeds `_snapshot_analyst_ratings` as a function of the provider data
(`ratings` from finviz, `current_price` from yfinance): dedupe by firm,
then upsert one row per deduplicated firm. -/
def snapshot_analyst_ratings (ratings : List RawRating) (current_price : ℚ)
    (ticker : String) (snapshot_date : Int) (l : List AnalystSnapshot) :
    List AnalystSnapshot :=
  ((dedupeRatings ratings).map Prod.snd).foldl
    (upsertAnalystRow ticker snapshot_date current_price) l

/-- The consensus-targets dict returned by `get_consensus_targets`. -/
structure ConsensusTargets where
  low : PyVal
  avg : PyVal
  median : PyVal
  high : PyVal
  count : PyVal
  consensus : Option String
  current : PyVal
deriving DecidableEq

/-- The payload assignments of `_snapshot_consensus`, applied to an
existing row (update branch); `current_price` is already resolved
(`_to_float(targets["current"])` with the live-price fallback). -/
def applyConsensusUpdate (snapshot_date : Int) (targets : ConsensusTargets)
    (current_price : ℚ) (r : ConsensusSnapshot) : ConsensusSnapshot :=
  let target_avg := _to_float targets.avg
  { r with
    target_low := _to_float targets.low
    target_avg := target_avg
    target_median := _to_float targets.median
    target_high := _to_float targets.high
    analyst_count := _to_int targets.count
    consensus_rating := targets.consensus
    current_price := current_price
    implied_upside := impliedOf target_avg current_price
    target_date := snapshot_date + 365
    source := "yfinance" }

/-- The fresh `ConsensusSnapshot` inserted when no row exists for
(ticker, snapshot_date). -/
def newConsensusRow (ticker : String) (snapshot_date : Int)
    (targets : ConsensusTargets) (current_price : ℚ) : ConsensusSnapshot :=
  let target_avg := _to_float targets.avg
  { ticker := ticker
    snapshot_date := snapshot_date
    target_low := _to_float targets.low
    target_avg := target_avg
    target_median := _to_float targets.median
    target_high := _to_float targets.high
    analyst_count := _to_int targets.count
    consensus_rating := targets.consensus
    current_price := current_price
    implied_upside := impliedOf target_avg current_price
    target_date := snapshot_date + 365
    actual_price_at_target := Option.none
    consensus_was_correct := Option.none
    source := "yfinance" }

/-- Resolving the current price in `_snapshot_consensus`:
`_to_float(targets.get("current"))`, falling back to the live
`get_current_price` value when null. -/
def consensusCurrentPrice (targets : ConsensusTargets) (fallback_price : ℚ) : ℚ :=
  match _to_float targets.current with
  | some p => p
  | Option.none => fallback_price

/-- Embeds `_snapshot_consensus` as a function of the provider data:
upsert the single (ticker, snapshot_date) consensus row. -/
def snapshot_consensus (targets : ConsensusTargets) (fallback_price : ℚ)
    (ticker : String) (snapshot_date : Int) (l : List ConsensusSnapshot) :
    List ConsensusSnapshot :=
  let current_price := consensusCurrentPrice targets fallback_price
  match l.find? (consensusKeyMatch ticker snapshot_date) with
  | some _ =>
    updateFirst (consensusKeyMatch ticker snapshot_date)
      (applyConsensusUpdate snapshot_date targets current_price) l
  | Option.none => l ++ [newConsensusRow ticker snapshot_date targets current_price]

/-! ### Evaluation stage (`evaluate_expired_predictions`)

The source fetches the pending rows and mutates exactly those in place;
each update depends only on the row itself and the realized price returned
by `get_price_on_date` (the `oracle` here), so the stage is the pointwise
map below with the pending filter as guard. -/

/-- The outcome written to one pending `AnalystSnapshot`: mark
unresolvable when no realized price exists, otherwise populate all four
outcome fields. -/
def evalAnalystRow (oracle : String → Int → Option ℚ) (reference : Int)
    (r : AnalystSnapshot) : AnalystSnapshot :=
  if pendingAnalystPred reference r then
    match oracle r.ticker r.target_date with
    | Option.none => { r with is_unresolvable := true }
    | some actual =>
      let predicted_return := compute_predicted_return r.price_target r.current_price
      let actual_return := compute_actual_return actual r.current_price
      { r with
        actual_price_at_target := some actual
        actual_return := some actual_return
        prediction_error := some (predicted_return - actual_return)
        is_directionally_correct :=
          some (is_directionally_correct predicted_return actual_return) }
  else r

/-- The outcome written to one pending `ConsensusSnapshot`: skip silently
when no realized price exists; otherwise set the price and, when
`target_avg` is present, the directional verdict. -/
def evalConsensusRow (oracle : String → Int → Option ℚ) (reference : Int)
    (r : ConsensusSnapshot) : ConsensusSnapshot :=
  if pendingConsensusPred reference r then
    match oracle r.ticker r.target_date with
    | Option.none => r
    | some actual =>
      match r.target_avg with
      | some avg =>
        { r with
          actual_price_at_target := some actual
          consensus_was_correct :=
            some (is_directionally_correct
              (compute_predicted_return (some avg) r.current_price)
              (compute_actual_return actual r.current_price)) }
      | Option.none => { r with actual_price_at_target := some actual }
  else r

/-- Embeds `evaluate_expired_predictions` (state change only). -/
def evaluate_expired_predictions (oracle : String → Int → Option ℚ)
    (reference : Int) (db : Db) : Db :=
  { analyst := db.analyst.map (evalAnalystRow oracle reference)
    consensus := db.consensus.map (evalConsensusRow oracle reference) }

/-! ### Score recomputation (`recompute_scores`, `_build_score`) -/

/-- Embeds `_build_score`: a group smaller than `min_predictions` gets a
row with all metric fields null; otherwise all metrics are computed. -/
def buildScore (cfg : ScoreConfig) (firm : String) (ticker : Option String)
    (rows : List AnalystSnapshot) : AnalystScore :=
  let total := rows.length
  if total < cfg.min_predictions then
    { firm := firm
      ticker := ticker
      total_predictions := total
      success_rate := Option.none
      avg_return_error := Option.none
      avg_absolute_error := Option.none
      directional_accuracy := Option.none
      composite_score := Option.none
      best_call_ticker := Option.none
      worst_call_ticker := Option.none }
  else
    let errors := rows.map (fun r => |r.prediction_error.getD 0|)
    let raw_errors := rows.map (fun r => r.prediction_error.getD 0)
    let directional := rows.filterMap (fun r => r.is_directionally_correct)
    let success_count := errors.countP (fun e => decide (e < cfg.success_threshold))
    let success_rate := (success_count : ℚ) / (total : ℚ)
    let avg_abs_error := errors.sum / (total : ℚ)
    let avg_return_error := raw_errors.sum / (total : ℚ)
    let directional_accuracy :=
      if directional.isEmpty then 0
      else ((directional.countP (fun d => d) : ℚ) / (directional.length : ℚ))
    let composite := composite_score success_rate directional_accuracy avg_abs_error
    let sorted_rows :=
      rows.mergeSort (fun a b => decide (|a.prediction_error.getD 0| ≤ |b.prediction_error.getD 0|))
    let best := (sorted_rows.head?).map (fun r => r.ticker)
    let worst := (sorted_rows.getLast?).map (fun r => r.ticker)
    { firm := firm
      ticker := ticker
      total_predictions := total
      success_rate := some success_rate
      avg_return_error := some avg_return_error
      avg_absolute_error := some avg_abs_error
      directional_accuracy := some directional_accuracy
      composite_score := some composite
      best_call_ticker := best
      worst_call_ticker := worst }

/-- The `setdefault(key, []).append(row)` grouping step. -/
def groupInsert {κ α : Type} [BEq κ] (k : κ) (v : α) (acc : List (κ × List α)) :
    List (κ × List α) :=
  match acc.find? (fun e => e.1 == k) with
  | some _ => updateFirst (fun e => e.1 == k) (fun e => (e.1, e.2 ++ [v])) acc
  | Option.none => acc ++ [(k, [v])]

/-- Grouping a row list by a key, in insertion order (the
`grouped_global` / `grouped_ticker` dicts of `recompute_scores`). -/
def groupByKey {κ α : Type} [BEq κ] (key : α → κ) (rows : List α) :
    List (κ × List α) :=
  rows.foldl (fun acc r => groupInsert (key r) r acc) []

/-- Embeds `recompute_scores`: clear all scores, fetch the resolved rows,
group per firm and per (firm, ticker), and build one `AnalystScore` per
group.  The returned list is the full content of the rebuilt table. -/
def recompute_scores (cfg : ScoreConfig) (db : Db) : List AnalystScore :=
  let rows := list_resolved_analyst_snapshots db
  (groupByKey (fun r => r.firm) rows).map (fun g => buildScore cfg g.1 Option.none g.2)
    ++ (groupByKey (fun r => (r.firm, r.ticker)) rows).map
        (fun g => buildScore cfg g.1.1 (some g.1.2) g.2)

/-! ### Daily snapshot loop (`run_daily_snapshot`)

Provider calls can raise one of `SERVICE_RECOVERABLE_ERRORS`; they are
modelled as `Except ε` oracles per ticker.  `db.rollback()` restores the
last committed state (`run_daily_snapshot` commits only once, after the
loop, so the committed state during the loop is the state at entry).
The loop catches every recoverable error, so the stage itself is a total
function into the final state and counts — it cannot raise to its caller. -/

/-- The provider calls used by the capture stage, each fallible. -/
structure CaptureProviders (ε : Type) where
  get_analyst_ratings : String → Except ε (List RawRating)
  get_current_price : String → Except ε ℚ
  get_consensus_targets : String → Except ε ConsensusTargets

/-- The body of the per-ticker `try`: `_snapshot_analyst_ratings` then
`_snapshot_consensus`, with the consensus current-price fallback calling
the live price provider only when the targets dict has no usable
`current` value. -/
def captureTicker {ε : Type} (pv : CaptureProviders ε) (ticker : String)
    (snapshot_date : Int) (db : Db) : Except ε Db := do
  let ratings ← pv.get_analyst_ratings ticker
  let price ← pv.get_current_price ticker
  let analyst2 := snapshot_analyst_ratings ratings price ticker snapshot_date db.analyst
  let targets ← pv.get_consensus_targets ticker
  let current ←
    match _to_float targets.current with
    | some p => pure p
    | Option.none => pv.get_current_price ticker
  pure { analyst := analyst2
         consensus := snapshot_consensus targets current ticker snapshot_date db.consensus }

/-- The `{tracked, ok, failed}` counts returned by `run_daily_snapshot`. -/
structure SnapshotCounts where
  tracked : Nat
  ok : Nat
  failed : Nat
deriving DecidableEq

/-- One iteration of the per-ticker loop: on success keep the new state and
bump `ok`; on a recoverable error roll back to the committed state and bump
`failed`. -/
def dailyStep {ε : Type} (pv : CaptureProviders ε) (snapshot_date : Int)
    (committed : Db) (s : Db × Nat × Nat) (ticker : String) : Db × Nat × Nat :=
  match captureTicker pv ticker snapshot_date s.1 with
  | Except.ok db2 => (db2, s.2.1 + 1, s.2.2)
  | Except.error _ => (committed, s.2.1, s.2.2 + 1)

/-- Embeds `run_daily_snapshot`: loop over the tracked tickers, catching
recoverable errors per ticker, then commit; returns the final state and
the counts. -/
def run_daily_snapshot {ε : Type} (pv : CaptureProviders ε)
    (tickers : List String) (snapshot_date : Int) (db : Db) :
    Db × SnapshotCounts :=
  let s := tickers.foldl (dailyStep pv snapshot_date db) (db, 0, 0)
  (s.1, { tracked := tickers.length, ok := s.2.1, failed := s.2.2 })

/-! ### Pipeline operations

The operations that can touch snapshot rows, with their provider inputs
made explicit; a reachable database state is one obtained from the empty
database by a sequence of these. -/

/-- One pipeline operation on the snapshot tables. -/
inductive PipelineOp where
  | capture (ticker : String) (snapshot_date : Int) (ratings : List RawRating)
      (current_price : ℚ) (targets : ConsensusTargets) (fallback_price : ℚ)
  | evaluate (reference : Int) (oracle : String → Int → Option ℚ)

/-- Apply one operation to the database state. -/
def applyOp (op : PipelineOp) (db : Db) : Db :=
  match op with
  | PipelineOp.capture ticker d ratings price targets fallback =>
    { analyst := snapshot_analyst_ratings ratings price ticker d db.analyst
      consensus := snapshot_consensus targets fallback ticker d db.consensus }
  | PipelineOp.evaluate reference oracle =>
    evaluate_expired_predictions oracle reference db

/-- Apply a sequence of operations, oldest first. -/
def applyOps (ops : List PipelineOp) (db : Db) : Db :=
  ops.foldl (fun s op => applyOp op s) db

end StockPulse

namespace StockPulse

/-! ### General lemmas about the list primitives -/

theorem updateFirst_length {α : Type} (p : α → Bool) (f : α → α) :
    ∀ l : List α, (updateFirst p f l).length = l.length := by
  intro l
  induction l with
  | nil => rfl
  | cons a l ih =>
    by_cases h : p a = true
    · simp [updateFirst, h]
    · simp [updateFirst, h, ih]

theorem mem_updateFirst {α : Type} (p : α → Bool) (f : α → α) :
    ∀ (l : List α) (x : α), x ∈ updateFirst p f l →
      x ∈ l ∨ ∃ y ∈ l, p y = true ∧ x = f y := by
  intro l
  induction l with
  | nil => intro x hx; exact absurd hx (List.not_mem_nil x)
  | cons a l ih =>
    intro x hx
    by_cases h : p a = true
    · simp only [updateFirst, if_pos h] at hx
      rcases List.mem_cons.mp hx with h1 | h1
      · exact Or.inr ⟨a, List.mem_cons_self a l, h, h1⟩
      · exact Or.inl (List.mem_cons_of_mem a h1)
    · simp only [updateFirst, if_neg h] at hx
      rcases List.mem_cons.mp hx with h1 | h1
      · exact Or.inl (h1 ▸ List.mem_cons_self a l)
      · rcases ih x h1 with h2 | ⟨y, hy, hpy, hxy⟩
        · exact Or.inl (List.mem_cons_of_mem a h2)
        · exact Or.inr ⟨y, List.mem_cons_of_mem a hy, hpy, hxy⟩

theorem updateFirst_eq_of_settled {α : Type} (p : α → Bool) (f : α → α) :
    ∀ l : List α, (∀ x ∈ l, p x = true → f x = x) → updateFirst p f l = l := by
  intro l
  induction l with
  | nil => intro _; rfl
  | cons a l ih =>
    intro h
    by_cases ha : p a = true
    · simp only [updateFirst, if_pos ha]
      rw [h a (List.mem_cons_self a l) ha]
    · simp only [updateFirst, if_neg ha]
      rw [ih (fun x hx => h x (List.mem_cons_of_mem a hx))]

theorem countP_updateFirst {α : Type} (p q : α → Bool) (f : α → α)
    (hf : ∀ x, q (f x) = q x) :
    ∀ l : List α, (updateFirst p f l).countP q = l.countP q := by
  intro l
  induction l with
  | nil => rfl
  | cons a l ih =>
    by_cases h : p a = true
    · simp [updateFirst, h, List.countP_cons, hf]
    · simp [updateFirst, h, List.countP_cons, ih]

theorem getElem?_updateFirst {α : Type} (p : α → Bool) (f : α → α) :
    ∀ (l : List α) (i : Nat),
      (updateFirst p f l)[i]? = l[i]? ∨
        ∃ x, l[i]? = some x ∧ p x = true ∧ (updateFirst p f l)[i]? = some (f x) := by
  intro l
  induction l with
  | nil => intro i; exact Or.inl rfl
  | cons a l ih =>
    intro i
    by_cases h : p a = true
    · simp only [updateFirst, if_pos h]
      cases i with
      | zero => exact Or.inr ⟨a, by simp, h, by simp⟩
      | succ n => exact Or.inl (by simp)
    · simp only [updateFirst, if_neg h]
      cases i with
      | zero => exact Or.inl (by simp)
      | succ n =>
        rcases ih n with h1 | ⟨x, hx, hpx, hux⟩
        · exact Or.inl (by simpa using h1)
        · exact Or.inr ⟨x, by simpa using hx, hpx, by simpa using hux⟩

/-- Every row of every group produced by `groupByKey` comes from the input
list. -/
theorem groupByKey_mem {κ α : Type} [BEq κ] (key : α → κ) (Q : α → Prop) :
    ∀ (rows : List α) (acc : List (κ × List α)),
      (∀ g ∈ acc, ∀ x ∈ g.2, Q x) → (∀ r ∈ rows, Q r) →
      ∀ g ∈ rows.foldl (fun a r => groupInsert (key r) r a) acc, ∀ x ∈ g.2, Q x := by
  intro rows
  induction rows with
  | nil => intro acc hacc _ g hg; exact hacc g hg
  | cons r rows ih =>
    intro acc hacc hrows g hg
    refine ih (groupInsert (key r) r acc) ?_ (fun x hx => hrows x (List.mem_cons_of_mem r hx)) g hg
    intro g' hg' x hx
    have hQr : Q r := hrows r (List.mem_cons_self r rows)
    unfold groupInsert at hg'
    rcases hfind : (acc.find? (fun e => e.1 == key r)) with _ | e
    · rw [hfind] at hg'
      rcases List.mem_append.mp hg' with h1 | h1
      · exact hacc g' h1 x hx
      · have : g' = (key r, [r]) := by simpa using h1
        subst this
        have : x = r := by simpa using hx
        exact this ▸ hQr
    · rw [hfind] at hg'
      rcases mem_updateFirst _ _ _ _ hg' with h1 | ⟨y, hy, _, hgy⟩
      · exact hacc g' h1 x hx
      · subst hgy
        rcases List.mem_append.mp hx with h2 | h2
        · exact hacc y hy x h2
        · have : x = r := by simpa using h2
          exact this ▸ hQr

theorem groupByKey_rows_mem {κ α : Type} [BEq κ] (key : α → κ) (rows : List α)
    (g : κ × List α) (hg : g ∈ groupByKey key rows) (x : α) (hx : x ∈ g.2) :
    x ∈ rows :=
  groupByKey_mem key (fun a => a ∈ rows) rows []
    (by intro g' hg'; exact absurd hg' (List.not_mem_nil g')) (fun r hr => hr) g hg x hx

/-- **C5.** For all inputs `s`, `d`, `e`, `composite_score s d e` is
`0.4*s + 0.3*d + 0.3*(1 − e)` clamped to `[0, 1]`, and in particular
`composite_score 0 0 10 = 0` and `composite_score 1 1 0 = 1`. -/
theorem composite_score_is_clamped_blend :
    (∀ s d e : ℚ,
      composite_score s d e
        = clampedToInterval 0 1 ((0.4 : ℚ) * s + (0.3 : ℚ) * d + (0.3 : ℚ) * (1 - e)))
    ∧ composite_score 0 0 10 = 0 ∧ composite_score 1 1 0 = 1 := by
  refine ⟨fun s d e => ?_, by norm_num [composite_score], by norm_num [composite_score]⟩
  unfold composite_score clampedToInterval
  set x : ℚ := (0.4 : ℚ) * s + (0.3 : ℚ) * d + (0.3 : ℚ) * (1 - e) with hx
  rcases lt_or_le x 0 with h0 | h0
  · rw [if_pos h0]
    show (0 : ℚ) ⊔ 1 ⊓ x = 0
    rw [min_eq_right (le_trans h0.le (zero_le_one)), max_eq_left h0.le]
  · rw [if_neg (not_lt.mpr h0)]
    rcases lt_or_le 1 x with h1 | h1
    · rw [if_pos h1]
      show (0 : ℚ) ⊔ 1 ⊓ x = 1
      rw [min_eq_left h1.le, max_eq_right (zero_le_one)]
    · rw [if_neg (not_lt.mpr h1)]
      show (0 : ℚ) ⊔ 1 ⊓ x = x
      rw [min_eq_right h1, max_eq_right h0]

/-- **C6.** `is_directionally_correct p a` is true iff `p` and `a` are both
strictly positive, both strictly negative, or both zero; with the spec's
four example evaluations. -/
theorem is_directionally_correct_iff_same_sign :
    (∀ p a : ℚ,
      is_directionally_correct p a = true
        ↔ ((p > 0 ∧ a > 0) ∨ (p < 0 ∧ a < 0) ∨ (p = 0 ∧ a = 0)))
    ∧ is_directionally_correct 0.2 0.1 = true
    ∧ is_directionally_correct (-0.2) (-0.1) = true
    ∧ is_directionally_correct 0.2 (-0.1) = false
    ∧ is_directionally_correct 0 0 = true := by
  refine ⟨fun p a => ?_, by norm_num [is_directionally_correct],
    by norm_num [is_directionally_correct], by norm_num [is_directionally_correct],
    by norm_num [is_directionally_correct]⟩
  unfold is_directionally_correct
  simp [or_assoc]

end StockPulse

namespace StockPulse

/-- The composite score is clamped, hence always within `[0, 1]`. -/
theorem composite_score_bounds (s d e : ℚ) :
    0 ≤ composite_score s d e ∧ composite_score s d e ≤ 1 := by
  unfold composite_score
  constructor
  · exact le_max_left 0 _
  · exact max_le (zero_le_one) (min_le_left 1 _)

/-- Unfolding of `buildScore` on a group below the minimum sample size. -/
theorem buildScore_lt (cfg : ScoreConfig) (firm : String) (ticker : Option String)
    (rows : List AnalystSnapshot) (h : rows.length < cfg.min_predictions) :
    buildScore cfg firm ticker rows =
      { firm := firm
        ticker := ticker
        total_predictions := rows.length
        success_rate := Option.none
        avg_return_error := Option.none
        avg_absolute_error := Option.none
        directional_accuracy := Option.none
        composite_score := Option.none
        best_call_ticker := Option.none
        worst_call_ticker := Option.none } := by
  unfold buildScore
  rw [if_pos h]

/-- Unfolding of `buildScore` on a group meeting the minimum sample size. -/
theorem buildScore_ge (cfg : ScoreConfig) (firm : String) (ticker : Option String)
    (rows : List AnalystSnapshot) (h : ¬ rows.length < cfg.min_predictions) :
    buildScore cfg firm ticker rows =
      { firm := firm
        ticker := ticker
        total_predictions := rows.length
        success_rate := some
          (((rows.map (fun r => |r.prediction_error.getD 0|)).countP
              (fun e => decide (e < cfg.success_threshold)) : ℚ) / (rows.length : ℚ))
        avg_return_error := some
          ((rows.map (fun r => r.prediction_error.getD 0)).sum / (rows.length : ℚ))
        avg_absolute_error := some
          ((rows.map (fun r => |r.prediction_error.getD 0|)).sum / (rows.length : ℚ))
        directional_accuracy := some
          (if (rows.filterMap (fun r => r.is_directionally_correct)).isEmpty then 0
           else (((rows.filterMap (fun r => r.is_directionally_correct)).countP (fun d => d) : ℚ)
              / ((rows.filterMap (fun r => r.is_directionally_correct)).length : ℚ)))
        composite_score := some
          (composite_score
            (((rows.map (fun r => |r.prediction_error.getD 0|)).countP
                (fun e => decide (e < cfg.success_threshold)) : ℚ) / (rows.length : ℚ))
            (if (rows.filterMap (fun r => r.is_directionally_correct)).isEmpty then 0
             else (((rows.filterMap (fun r => r.is_directionally_correct)).countP (fun d => d) : ℚ)
                / ((rows.filterMap (fun r => r.is_directionally_correct)).length : ℚ)))
            ((rows.map (fun r => |r.prediction_error.getD 0|)).sum / (rows.length : ℚ)))
        best_call_ticker :=
          ((rows.mergeSort (fun a b =>
              decide (|a.prediction_error.getD 0| ≤ |b.prediction_error.getD 0|))).head?).map
            (fun r => r.ticker)
        worst_call_ticker :=
          ((rows.mergeSort (fun a b =>
              decide (|a.prediction_error.getD 0| ≤ |b.prediction_error.getD 0|))).getLast?).map
            (fun r => r.ticker) } := by
  unfold buildScore
  rw [if_neg h]

/-- **C4.** `_build_score` on a group of resolved rows: `total_predictions`
is always the group size; a group smaller than the default minimum of 5
gets every metric field null; a group of 5 or more gets every metric field
populated, with `success_rate`, `directional_accuracy` and
`composite_score` in `[0, 1]`. -/
theorem build_score_minimum_sample (firm : String) (ticker : Option String)
    (rows : List AnalystSnapshot) :
    (buildScore defaultScoreConfig firm ticker rows).total_predictions = rows.length
    ∧ (rows.length < 5 →
        (buildScore defaultScoreConfig firm ticker rows).success_rate = Option.none
        ∧ (buildScore defaultScoreConfig firm ticker rows).avg_return_error = Option.none
        ∧ (buildScore defaultScoreConfig firm ticker rows).avg_absolute_error = Option.none
        ∧ (buildScore defaultScoreConfig firm ticker rows).directional_accuracy = Option.none
        ∧ (buildScore defaultScoreConfig firm ticker rows).composite_score = Option.none
        ∧ (buildScore defaultScoreConfig firm ticker rows).best_call_ticker = Option.none
        ∧ (buildScore defaultScoreConfig firm ticker rows).worst_call_ticker = Option.none)
    ∧ (5 ≤ rows.length →
        (∃ s, (buildScore defaultScoreConfig firm ticker rows).success_rate = some s
          ∧ 0 ≤ s ∧ s ≤ 1)
        ∧ (buildScore defaultScoreConfig firm ticker rows).avg_return_error.isSome = true
        ∧ (buildScore defaultScoreConfig firm ticker rows).avg_absolute_error.isSome = true
        ∧ (∃ a, (buildScore defaultScoreConfig firm ticker rows).directional_accuracy = some a
          ∧ 0 ≤ a ∧ a ≤ 1)
        ∧ (∃ c, (buildScore defaultScoreConfig firm ticker rows).composite_score = some c
          ∧ 0 ≤ c ∧ c ≤ 1)
        ∧ (buildScore defaultScoreConfig firm ticker rows).best_call_ticker.isSome = true
        ∧ (buildScore defaultScoreConfig firm ticker rows).worst_call_ticker.isSome = true) := by
  have hmin : defaultScoreConfig.min_predictions = 5 := rfl
  by_cases h : rows.length < 5
  · have hb := buildScore_lt defaultScoreConfig firm ticker rows (by rw [hmin]; exact h)
    rw [hb]
    exact ⟨rfl, fun _ => ⟨rfl, rfl, rfl, rfl, rfl, rfl, rfl⟩,
      fun h5 => absurd h (not_lt.mpr h5)⟩
  · have h5 : 5 ≤ rows.length := not_lt.mp h
    have hb := buildScore_ge defaultScoreConfig firm ticker rows (by rw [hmin]; exact h)
    rw [hb]
    have hpos : (0 : ℚ) < (rows.length : ℚ) := by
      exact_mod_cast lt_of_lt_of_le (by norm_num) h5
    have hne : rows ≠ [] := by
      intro hnil
      rw [hnil] at h5
      exact absurd h5 (by norm_num)
    have hsne : (rows.mergeSort (fun a b =>
        decide (|a.prediction_error.getD 0| ≤ |b.prediction_error.getD 0|))) ≠ [] := by
      intro hnil
      have hl := @List.length_mergeSort _
        (fun a b => decide (|a.prediction_error.getD 0| ≤ |b.prediction_error.getD 0|)) rows
      rw [hnil] at hl
      exact hne (List.length_eq_zero.mp hl.symm)
    have hsr0 : (0 : ℚ) ≤
        (((rows.map (fun r => |r.prediction_error.getD 0|)).countP
          (fun e => decide (e < defaultScoreConfig.success_threshold)) : ℚ) / (rows.length : ℚ)) := by
      positivity
    have hsr1 :
        (((rows.map (fun r => |r.prediction_error.getD 0|)).countP
          (fun e => decide (e < defaultScoreConfig.success_threshold)) : ℚ) / (rows.length : ℚ)) ≤ 1 := by
      rw [div_le_one hpos]
      have hle := @List.countP_le_length _
        (fun e => decide (e < defaultScoreConfig.success_threshold))
        (rows.map (fun r => |r.prediction_error.getD 0|))
      rw [List.length_map] at hle
      exact_mod_cast hle
    have hda0 : (0 : ℚ) ≤
        (if (rows.filterMap (fun r => r.is_directionally_correct)).isEmpty then 0
         else (((rows.filterMap (fun r => r.is_directionally_correct)).countP (fun d => d) : ℚ)
            / ((rows.filterMap (fun r => r.is_directionally_correct)).length : ℚ))) := by
      by_cases hd : (rows.filterMap (fun r => r.is_directionally_correct)).isEmpty
      · rw [if_pos hd]
      · rw [if_neg hd]
        positivity
    have hda1 :
        (if (rows.filterMap (fun r => r.is_directionally_correct)).isEmpty then 0
         else (((rows.filterMap (fun r => r.is_directionally_correct)).countP (fun d => d) : ℚ)
            / ((rows.filterMap (fun r => r.is_directionally_correct)).length : ℚ))) ≤ 1 := by
      by_cases hd : (rows.filterMap (fun r => r.is_directionally_correct)).isEmpty
      · rw [if_pos hd]; exact zero_le_one
      · rw [if_neg hd]
        have hdne : (rows.filterMap (fun r => r.is_directionally_correct)).length ≠ 0 := by
          intro h0
          exact hd (by simpa [List.isEmpty_iff_length_eq_zero] using h0)
        have hdpos : (0 : ℚ) <
            ((rows.filterMap (fun r => r.is_directionally_correct)).length : ℚ) := by
          exact_mod_cast Nat.pos_of_ne_zero hdne
        rw [div_le_one hdpos]
        exact_mod_cast List.countP_le_length (fun d => d)
    refine ⟨rfl, fun hlt => absurd hlt h, fun _ => ?_⟩
    refine ⟨⟨_, rfl, hsr0, hsr1⟩, rfl, rfl, ⟨_, rfl, hda0, hda1⟩,
      ⟨_, rfl, (composite_score_bounds _ _ _).1, (composite_score_bounds _ _ _).2⟩, ?_, ?_⟩
    · simp [Option.isSome_map, List.head?_isSome, hsne]
    · simp [Option.isSome_map, List.getLast?_isSome, hsne]

end StockPulse

namespace StockPulse

/-- A concrete resolved snapshot row used to instantiate theorems. -/
def sampleResolvedRow : AnalystSnapshot :=
  { ticker := "AAPL"
    snapshot_date := 0
    firm := "Goldman Sachs"
    analyst_name := Option.none
    action := Option.none
    rating := "Buy"
    price_target := some 185
    current_price := 150
    implied_return := Option.none
    target_date := 365
    actual_price_at_target := some 160
    actual_return := some 1
    prediction_error := some 1
    is_directionally_correct := some true
    is_backfilled := false
    is_unresolvable := false
    source := "finvizfinance" }

/-- Witness for C4 at concrete group sizes 5 and 2. -/
theorem build_score_minimum_sample_witness :
    (buildScore defaultScoreConfig "Goldman Sachs" Option.none
        (List.replicate 5 sampleResolvedRow)).composite_score.isSome = true
    ∧ (buildScore defaultScoreConfig "Goldman Sachs" Option.none
        (List.replicate 2 sampleResolvedRow)).success_rate = Option.none := by
  constructor
  · obtain ⟨c, hc, _, _⟩ :=
      ((build_score_minimum_sample "Goldman Sachs" Option.none
        (List.replicate 5 sampleResolvedRow)).2.2 (by decide)).2.2.2.2.1
    rw [hc]; rfl
  · exact ((build_score_minimum_sample "Goldman Sachs" Option.none
      (List.replicate 2 sampleResolvedRow)).2.1 (by decide)).1

/-- A row meeting every condition C2 names, but flagged `is_backfilled`. -/
def backfilledPendingRow : AnalystSnapshot :=
  { ticker := "AAPL"
    snapshot_date := -365
    firm := "Goldman Sachs"
    analyst_name := Option.none
    action := Option.none
    rating := "Buy"
    price_target := some 185
    current_price := 150
    implied_return := Option.none
    target_date := 0
    actual_price_at_target := Option.none
    actual_return := Option.none
    prediction_error := Option.none
    is_directionally_correct := Option.none
    is_backfilled := true
    is_unresolvable := false
    source := "finvizfinance" }

/-- **C2, counterexample.** A backfilled row satisfies every condition the
claim lists (target date passed, outcome null, price target present, not
unresolvable) yet is not selected by the evaluation run's pending query:
the claim's "if and only if" fails in the "if" direction. -/
theorem pending_selection_iff_counterexample :
    backfilledPendingRow ∈ (Db.mk [backfilledPendingRow] []).analyst
    ∧ backfilledPendingRow.target_date ≤ 0
    ∧ backfilledPendingRow.actual_price_at_target = Option.none
    ∧ backfilledPendingRow.price_target ≠ Option.none
    ∧ backfilledPendingRow.is_unresolvable = false
    ∧ backfilledPendingRow ∉ list_pending_analyst_snapshots (Db.mk [backfilledPendingRow] []) 0 := by
  refine ⟨List.mem_cons_self _ _, by decide, by decide, by decide, by decide, ?_⟩
  intro hmem
  have := (List.mem_filter.mp hmem).2
  simp [pendingAnalystPred, backfilledPendingRow] at this

/-- **C2, amended.** A row in the database is selected by an evaluation run
with reference date `R` iff `target_date ≤ R`, its outcome is still null,
its `price_target` is non-null, `is_unresolvable` is false, **and
`is_backfilled` is false** (the claim omits the backfilled guard). -/
theorem pending_selection_iff (db : Db) (R : Int) (r : AnalystSnapshot)
    (h : r ∈ db.analyst) :
    r ∈ list_pending_analyst_snapshots db R
      ↔ (r.target_date ≤ R
          ∧ r.actual_price_at_target = Option.none
          ∧ r.price_target ≠ Option.none
          ∧ r.is_unresolvable = false
          ∧ r.is_backfilled = false) := by
  unfold list_pending_analyst_snapshots
  rw [List.mem_filter]
  simp only [h, true_and, pendingAnalystPred, Bool.and_eq_true, decide_eq_true_eq,
    Option.isNone_iff_eq_none, Bool.not_eq_true', Option.isSome_iff_ne_none]
  tauto

/-- A concrete pending (not yet evaluated) snapshot row. -/
def samplePendingRow : AnalystSnapshot :=
  { sampleResolvedRow with
    actual_price_at_target := Option.none
    actual_return := Option.none
    prediction_error := Option.none
    is_directionally_correct := Option.none }

/-- Witness for the amended C2: a non-backfilled pending row is selected. -/
theorem pending_selection_iff_witness :
    samplePendingRow ∈
      list_pending_analyst_snapshots (Db.mk [samplePendingRow] []) 365 :=
  (pending_selection_iff (Db.mk [samplePendingRow] []) 365 samplePendingRow
      (List.mem_cons_self _ _)).mpr
    ⟨by decide, by decide, by decide, by decide, by decide⟩

/-- **C10.** A backfilled snapshot row is never selected by the evaluation
stage's pending query and never selected by the resolved-row query feeding
score recomputation; evaluation leaves it exactly as it is, and no group
fed to `_build_score` (global or per ticker) contains it. -/
theorem backfilled_rows_never_evaluated_or_scored (r : AnalystSnapshot)
    (hb : r.is_backfilled = true) :
    (∀ R, pendingAnalystPred R r = false)
    ∧ resolvedAnalystPred r = false
    ∧ (∀ oracle R, evalAnalystRow oracle R r = r)
    ∧ (∀ db R, r ∉ list_pending_analyst_snapshots db R)
    ∧ (∀ db, r ∉ list_resolved_analyst_snapshots db)
    ∧ (∀ db g, g ∈ groupByKey (fun x => x.firm) (list_resolved_analyst_snapshots db)
        → r ∉ g.2)
    ∧ (∀ db g, g ∈ groupByKey (fun x => (x.firm, x.ticker)) (list_resolved_analyst_snapshots db)
        → r ∉ g.2) := by
  have hpend : ∀ R, pendingAnalystPred R r = false := by
    intro R
    simp [pendingAnalystPred, hb]
  have hres : resolvedAnalystPred r = false := by
    simp [resolvedAnalystPred, hb]
  have hnotres : ∀ db : Db, r ∉ list_resolved_analyst_snapshots db := by
    intro db hmem
    have := (List.mem_filter.mp hmem).2
    rw [hres] at this
    exact Bool.false_ne_true this
  refine ⟨hpend, hres, ?_, ?_, hnotres, ?_, ?_⟩
  · intro oracle R
    unfold evalAnalystRow
    rw [hpend R]
    simp
  · intro db R hmem
    have := (List.mem_filter.mp hmem).2
    rw [hpend R] at this
    exact Bool.false_ne_true this
  · intro db g hg hr
    exact hnotres db (groupByKey_rows_mem _ _ g hg r hr)
  · intro db g hg hr
    exact hnotres db (groupByKey_rows_mem _ _ g hg r hr)

/-- Witness for C10 at the concrete backfilled row. -/
theorem backfilled_rows_never_evaluated_or_scored_witness :
    evalAnalystRow (fun _ _ => some 1) 0 backfilledPendingRow = backfilledPendingRow
    ∧ backfilledPendingRow ∉
        list_resolved_analyst_snapshots (Db.mk [backfilledPendingRow] []) :=
  ⟨(backfilled_rows_never_evaluated_or_scored backfilledPendingRow (by decide)).2.2.1
      (fun _ _ => some 1) 0,
   (backfilled_rows_never_evaluated_or_scored backfilledPendingRow (by decide)).2.2.2.2.1
      (Db.mk [backfilledPendingRow] [])⟩

/-- The per-ticker loop of `run_daily_snapshot` adds exactly one to
`ok + failed` per ticker. -/
theorem dailyStep_fold_counts {ε : Type} (pv : CaptureProviders ε) (d : Int)
    (committed : Db) :
    ∀ (tickers : List String) (dbs : Db) (ok failed : Nat),
      (tickers.foldl (dailyStep pv d committed) (dbs, ok, failed)).2.1
          + (tickers.foldl (dailyStep pv d committed) (dbs, ok, failed)).2.2
        = ok + failed + tickers.length := by
  intro tickers
  induction tickers with
  | nil => intro dbs ok failed; simp
  | cons t tickers ih =>
    intro dbs ok failed
    rw [List.foldl_cons]
    rcases h : captureTicker pv t d dbs with e | db2
    · simp only [dailyStep, h]
      rw [ih]
      simp only [List.length_cons]
      omega
    · simp only [dailyStep, h]
      rw [ih]
      simp only [List.length_cons]
      omega

/-- **C8.** For every list of tracked tickers, the capture stage returns
counts with `tracked` the number of tracked tickers and
`tracked = ok + failed`; a recoverable error on one ticker is caught,
counted in `failed`, and that iteration rolls the session back to the
committed state (discarding the failing ticker's uncommitted work) before
the loop continues.  The stage is a total function into final state and
counts, so a recoverable per-ticker error never escapes to the caller. -/
theorem run_daily_snapshot_isolation {ε : Type} (pv : CaptureProviders ε)
    (tickers : List String) (d : Int) (db : Db) :
    (run_daily_snapshot pv tickers d db).2.tracked = tickers.length
    ∧ (run_daily_snapshot pv tickers d db).2.tracked
        = (run_daily_snapshot pv tickers d db).2.ok
          + (run_daily_snapshot pv tickers d db).2.failed
    ∧ (∀ (s : Db × Nat × Nat) (t : String) (e : ε),
        captureTicker pv t d s.1 = Except.error e →
        dailyStep pv d db s t = (db, s.2.1, s.2.2 + 1)) := by
  refine ⟨rfl, ?_, ?_⟩
  · have h := dailyStep_fold_counts pv d db tickers db 0 0
    show tickers.length
      = (tickers.foldl (dailyStep pv d db) (db, 0, 0)).2.1
        + (tickers.foldl (dailyStep pv d db) (db, 0, 0)).2.2
    omega
  · intro s t e h
    unfold dailyStep
    rw [h]

/-- Capture providers whose every call fails with a recoverable error. -/
def failingProviders : CaptureProviders Unit :=
  { get_analyst_ratings := fun _ => Except.error ()
    get_current_price := fun _ => Except.error ()
    get_consensus_targets := fun _ => Except.error () }

/-- Witness for C8: with providers that always fail, the counts balance and
the failing ticker's iteration rolls back and counts one failure. -/
theorem run_daily_snapshot_isolation_witness :
    (run_daily_snapshot failingProviders ["AAPL"] 0 Db.empty).2.tracked
      = (run_daily_snapshot failingProviders ["AAPL"] 0 Db.empty).2.ok
        + (run_daily_snapshot failingProviders ["AAPL"] 0 Db.empty).2.failed
    ∧ dailyStep failingProviders 0 Db.empty (Db.empty, 0, 0) "AAPL" = (Db.empty, 0, 1) :=
  ⟨(run_daily_snapshot_isolation failingProviders ["AAPL"] 0 Db.empty).2.1,
   (run_daily_snapshot_isolation failingProviders ["AAPL"] 0 Db.empty).2.2
      (Db.empty, 0, 0) "AAPL" () rfl⟩

end StockPulse

namespace StockPulse

/-! ### Outcome-field invariants (C1, C9) -/

/-- All four outcome fields of an analyst row are null (pending). -/
def analystOutcomeNone (r : AnalystSnapshot) : Prop :=
  r.actual_price_at_target = Option.none
  ∧ r.actual_return = Option.none
  ∧ r.prediction_error = Option.none
  ∧ r.is_directionally_correct = Option.none

/-- All four outcome fields of an analyst row are populated (resolved). -/
def analystOutcomeAll (r : AnalystSnapshot) : Prop :=
  r.actual_price_at_target.isSome = true
  ∧ r.actual_return.isSome = true
  ∧ r.prediction_error.isSome = true
  ∧ r.is_directionally_correct.isSome = true

/-- The claim's outcome invariant for one analyst row: all-null or
all-populated, and an unresolvable row is all-null. -/
def analystOutcomeOK (r : AnalystSnapshot) : Prop :=
  (analystOutcomeNone r ∨ analystOutcomeAll r)
  ∧ (r.is_unresolvable = true → analystOutcomeNone r)

/-- The invariant that actually holds for a consensus row: the directional
verdict is never populated without the realized price (the converse can
fail when `target_avg` is null). -/
def consensusOutcomeOK (r : ConsensusSnapshot) : Prop :=
  r.consensus_was_correct.isSome = true → r.actual_price_at_target.isSome = true

/-- The database-wide outcome invariant. -/
def dbOutcomeOK (db : Db) : Prop :=
  (∀ r ∈ db.analyst, analystOutcomeOK r) ∧ (∀ r ∈ db.consensus, consensusOutcomeOK r)

/-- Unpacking the pending filter. -/
theorem pendingAnalystPred_spec (R : Int) (r : AnalystSnapshot)
    (h : pendingAnalystPred R r = true) :
    r.target_date ≤ R ∧ r.actual_price_at_target = Option.none
      ∧ r.is_unresolvable = false ∧ r.is_backfilled = false
      ∧ r.price_target.isSome = true := by
  simp only [pendingAnalystPred, Bool.and_eq_true, decide_eq_true_eq,
    Option.isNone_iff_eq_none, Bool.not_eq_true'] at h
  tauto

/-- The capture-stage field update touches no outcome field and no flag. -/
theorem applyAnalystUpdate_outcomeOK (cp : ℚ) (td : Int) (row : RawRating)
    (r : AnalystSnapshot) :
    analystOutcomeOK (applyAnalystUpdate cp td row r) ↔ analystOutcomeOK r :=
  Iff.rfl

/-- A freshly inserted analyst row is pending. -/
theorem newAnalystRow_outcomeOK (t : String) (d : Int) (f : String) (cp : ℚ)
    (td : Int) (row : RawRating) :
    analystOutcomeOK (newAnalystRow t d f cp td row) :=
  ⟨Or.inl ⟨rfl, rfl, rfl, rfl⟩, fun _ => ⟨rfl, rfl, rfl, rfl⟩⟩

/-- Zeta-reduced unfolding of the analyst upsert, convenient for case
splits on the repository lookup. -/
theorem upsertAnalystRow_eq (t : String) (d : Int) (cp : ℚ)
    (l : List AnalystSnapshot) (row : RawRating) :
    upsertAnalystRow t d cp l row =
      match l.find? (analystKeyMatch t d (pyStr (pyOr row.firm (PyVal.str "Unknown")))) with
      | some _ =>
        updateFirst (analystKeyMatch t d (pyStr (pyOr row.firm (PyVal.str "Unknown"))))
          (applyAnalystUpdate cp (d + 365) row) l
      | Option.none =>
        l ++ [newAnalystRow t d (pyStr (pyOr row.firm (PyVal.str "Unknown"))) cp (d + 365) row] :=
  rfl

/-- Zeta-reduced unfolding of the consensus upsert. -/
theorem snapshot_consensus_eq (tg : ConsensusTargets) (fb : ℚ) (t : String)
    (d : Int) (l : List ConsensusSnapshot) :
    snapshot_consensus tg fb t d l =
      match l.find? (consensusKeyMatch t d) with
      | some _ =>
        updateFirst (consensusKeyMatch t d)
          (applyConsensusUpdate d tg (consensusCurrentPrice tg fb)) l
      | Option.none => l ++ [newConsensusRow t d tg (consensusCurrentPrice tg fb)] :=
  rfl

/-- The analyst upsert preserves the outcome invariant row-wise. -/
theorem upsertAnalystRow_outcomeOK (t : String) (d : Int) (cp : ℚ)
    (l : List AnalystSnapshot) (row : RawRating)
    (h : ∀ r ∈ l, analystOutcomeOK r) :
    ∀ r ∈ upsertAnalystRow t d cp l row, analystOutcomeOK r := by
  intro r hr
  rw [upsertAnalystRow_eq] at hr
  rcases hfind : l.find? (analystKeyMatch t d (pyStr (pyOr row.firm (PyVal.str "Unknown")))) with _ | x
  · rw [hfind] at hr
    rcases List.mem_append.mp hr with h1 | h1
    · exact h r h1
    · have : r = newAnalystRow t d (pyStr (pyOr row.firm (PyVal.str "Unknown"))) cp (d + 365) row := by
        simpa using h1
      rw [this]
      exact newAnalystRow_outcomeOK _ _ _ _ _ _
  · rw [hfind] at hr
    rcases mem_updateFirst _ _ _ _ hr with h1 | ⟨y, hy, _, hry⟩
    · exact h r h1
    · rw [hry]
      exact (applyAnalystUpdate_outcomeOK _ _ _ _).mpr (h y hy)

/-- The whole analyst capture preserves the outcome invariant. -/
theorem snapshot_analyst_ratings_outcomeOK (ratings : List RawRating) (cp : ℚ)
    (t : String) (d : Int) :
    ∀ (l : List AnalystSnapshot), (∀ r ∈ l, analystOutcomeOK r) →
      ∀ r ∈ snapshot_analyst_ratings ratings cp t d l, analystOutcomeOK r := by
  unfold snapshot_analyst_ratings
  generalize (dedupeRatings ratings).map Prod.snd = rows
  induction rows with
  | nil => intro l hl; exact hl
  | cons row rows ih =>
    intro l hl
    rw [List.foldl_cons]
    exact ih _ (upsertAnalystRow_outcomeOK t d cp l row hl)

/-- The consensus payload update touches neither outcome field. -/
theorem applyConsensusUpdate_outcomeOK (d : Int) (tg : ConsensusTargets) (cp : ℚ)
    (r : ConsensusSnapshot) :
    consensusOutcomeOK (applyConsensusUpdate d tg cp r) ↔ consensusOutcomeOK r :=
  Iff.rfl

/-- The consensus upsert preserves the consensus invariant row-wise. -/
theorem snapshot_consensus_outcomeOK (tg : ConsensusTargets) (fb : ℚ)
    (t : String) (d : Int) (l : List ConsensusSnapshot)
    (h : ∀ r ∈ l, consensusOutcomeOK r) :
    ∀ r ∈ snapshot_consensus tg fb t d l, consensusOutcomeOK r := by
  intro r hr
  rw [snapshot_consensus_eq] at hr
  rcases hfind : l.find? (consensusKeyMatch t d) with _ | x
  · rw [hfind] at hr
    rcases List.mem_append.mp hr with h1 | h1
    · exact h r h1
    · have : r = newConsensusRow t d tg (consensusCurrentPrice tg fb) := by simpa using h1
      rw [this]
      intro hcontra
      exact absurd hcontra (by simp [newConsensusRow])
  · rw [hfind] at hr
    rcases mem_updateFirst _ _ _ _ hr with h1 | ⟨y, hy, _, hry⟩
    · exact h r h1
    · rw [hry]
      exact (applyConsensusUpdate_outcomeOK _ _ _ _).mpr (h y hy)

/-- One evaluation step preserves the outcome invariant of an analyst row:
a selected pending row becomes either unresolvable (still all-null) or
fully resolved, and unselected rows are untouched. -/
theorem evalAnalystRow_outcomeOK (oracle : String → Int → Option ℚ) (R : Int)
    (r : AnalystSnapshot) (h : analystOutcomeOK r) :
    analystOutcomeOK (evalAnalystRow oracle R r) := by
  by_cases hp : pendingAnalystPred R r = true
  · obtain ⟨_, hnone, hunres, _, _⟩ := pendingAnalystPred_spec R r hp
    have hOn : analystOutcomeNone r := by
      rcases h.1 with h1 | h1
      · exact h1
      · have hsome := h1.1
        rw [hnone] at hsome
        exact absurd hsome (by simp)
    unfold evalAnalystRow
    rw [if_pos hp]
    rcases oracle r.ticker r.target_date with _ | actual
    · exact ⟨Or.inl hOn, fun _ => hOn⟩
    · refine ⟨Or.inr ⟨rfl, rfl, rfl, rfl⟩, fun hcontra => ?_⟩
      have : r.is_unresolvable = true := hcontra
      rw [hunres] at this
      exact absurd this (by simp)
  · unfold evalAnalystRow
    rw [if_neg hp]
    exact h

/-- One evaluation step preserves the consensus invariant. -/
theorem evalConsensusRow_outcomeOK (oracle : String → Int → Option ℚ) (R : Int)
    (r : ConsensusSnapshot) (h : consensusOutcomeOK r) :
    consensusOutcomeOK (evalConsensusRow oracle R r) := by
  by_cases hp : pendingConsensusPred R r = true
  · unfold evalConsensusRow
    rw [if_pos hp]
    rcases oracle r.ticker r.target_date with _ | actual
    · exact h
    · rcases havg : r.target_avg with _ | avg
      · intro _; rfl
      · intro _; rfl
  · unfold evalConsensusRow
    rw [if_neg hp]
    exact h

/-- One pipeline operation preserves the database-wide invariant. -/
theorem applyOp_outcomeOK (op : PipelineOp) (db : Db) (h : dbOutcomeOK db) :
    dbOutcomeOK (applyOp op db) := by
  rcases op with ⟨t, d, ratings, price, targets, fb⟩ | ⟨R, oracle⟩
  · exact ⟨snapshot_analyst_ratings_outcomeOK ratings price t d db.analyst h.1,
      snapshot_consensus_outcomeOK targets fb t d db.consensus h.2⟩
  · constructor
    · intro r hr
      rcases List.mem_map.mp hr with ⟨y, hy, hyr⟩
      exact hyr ▸ evalAnalystRow_outcomeOK oracle R y (h.1 y hy)
    · intro r hr
      rcases List.mem_map.mp hr with ⟨y, hy, hyr⟩
      exact hyr ▸ evalConsensusRow_outcomeOK oracle R y (h.2 y hy)

/-- Targets dict with no usable values (models a provider response without
an average target). -/
def emptyTargets : ConsensusTargets :=
  { low := PyVal.none
    avg := PyVal.none
    median := PyVal.none
    high := PyVal.none
    count := PyVal.none
    consensus := Option.none
    current := PyVal.none }

/-- **C1, counterexample.** A reachable `ConsensusSnapshot` row mixes
populated and null outcome fields: capture a consensus snapshot whose
provider data has no average target, then evaluate after the horizon with
a realized price available — the row gets `actual_price_at_target`
populated while `consensus_was_correct` stays null (and consensus rows
have no `is_unresolvable` flag to excuse it). -/
theorem snapshot_outcome_invariant_counterexample :
    ((applyOps
        [PipelineOp.capture "AAPL" 0 [] 10 emptyTargets 10,
         PipelineOp.evaluate 365 (fun _ _ => some 12)] Db.empty).consensus.map
      (fun r => (r.actual_price_at_target, r.consensus_was_correct)))
    = [(some 12, Option.none)] := by
  rfl

/-- **C1, amended.** Starting from any database satisfying the invariant
(in particular the empty one), every sequence of capture and evaluation
operations preserves it: an `AnalystSnapshot` row has its outcome fields
all null or all populated, with unresolvable rows all-null; a
`ConsensusSnapshot` row never has `consensus_was_correct` populated
without `actual_price_at_target`, but (unlike the claim) it may have
`actual_price_at_target` populated with `consensus_was_correct` null. -/
theorem snapshot_outcome_invariant :
    dbOutcomeOK Db.empty
    ∧ (∀ (db : Db) (ops : List PipelineOp),
        dbOutcomeOK db → dbOutcomeOK (applyOps ops db)) := by
  constructor
  · exact ⟨fun r hr => absurd hr (List.not_mem_nil r), fun r hr => absurd hr (List.not_mem_nil r)⟩
  · intro db ops
    induction ops generalizing db with
    | nil => intro h; exact h
    | cons op ops ih =>
      intro h
      exact ih (applyOp op db) (applyOp_outcomeOK op db h)

/-- Witness for the amended C1 on a concrete capture-then-evaluate run. -/
theorem snapshot_outcome_invariant_witness :
    dbOutcomeOK (applyOps
      [PipelineOp.capture "AAPL" 0 [] 10 emptyTargets 10,
       PipelineOp.evaluate 365 (fun _ _ => some 12)] Db.empty) :=
  snapshot_outcome_invariant.2 Db.empty
    [PipelineOp.capture "AAPL" 0 [] 10 emptyTargets 10,
     PipelineOp.evaluate 365 (fun _ _ => some 12)]
    snapshot_outcome_invariant.1

end StockPulse

namespace StockPulse

/-- A row that is unresolvable with all outcome fields null. -/
def unresolvedFrozen (r : AnalystSnapshot) : Prop :=
  r.is_unresolvable = true ∧ analystOutcomeNone r

/-- The capture-stage field update keeps a frozen unresolvable row
frozen. -/
theorem applyAnalystUpdate_unresolvedFrozen (cp : ℚ) (td : Int) (row : RawRating)
    (r : AnalystSnapshot) :
    unresolvedFrozen (applyAnalystUpdate cp td row r) ↔ unresolvedFrozen r :=
  Iff.rfl

/-- The analyst upsert keeps the row at position `i`, possibly with its
capture fields refreshed. -/
theorem upsertAnalystRow_getElem? (t : String) (d : Int) (cp : ℚ)
    (l : List AnalystSnapshot) (row : RawRating) (i : Nat) (r : AnalystSnapshot)
    (h : l[i]? = some r) :
    (upsertAnalystRow t d cp l row)[i]? = some r
    ∨ (upsertAnalystRow t d cp l row)[i]? = some (applyAnalystUpdate cp (d + 365) row r) := by
  rw [upsertAnalystRow_eq]
  rcases hfind : l.find? (analystKeyMatch t d (pyStr (pyOr row.firm (PyVal.str "Unknown")))) with _ | x
  · left
    have hlt : i < l.length := (List.getElem?_eq_some.mp h).1
    rw [List.getElem?_append, if_pos hlt]
    exact h
  · rcases getElem?_updateFirst
        (analystKeyMatch t d (pyStr (pyOr row.firm (PyVal.str "Unknown"))))
        (applyAnalystUpdate cp (d + 365) row) l i with h1 | ⟨y, hy, _, huy⟩
    · left; rw [h1]; exact h
    · right
      rw [h] at hy
      have hry : r = y := Option.some.inj hy
      rw [huy, ← hry]

/-- The whole analyst capture keeps a frozen unresolvable row at its
position, frozen. -/
theorem snapshot_analyst_ratings_unresolvedFrozen (ratings : List RawRating)
    (cp : ℚ) (t : String) (d : Int) :
    ∀ (l : List AnalystSnapshot) (i : Nat) (r : AnalystSnapshot),
      l[i]? = some r → unresolvedFrozen r →
      ∃ r', (snapshot_analyst_ratings ratings cp t d l)[i]? = some r'
        ∧ unresolvedFrozen r' := by
  unfold snapshot_analyst_ratings
  generalize (dedupeRatings ratings).map Prod.snd = rows
  induction rows with
  | nil => intro l i r h hf; exact ⟨r, h, hf⟩
  | cons row rows ih =>
    intro l i r h hf
    rw [List.foldl_cons]
    rcases upsertAnalystRow_getElem? t d cp l row i r h with h1 | h1
    · exact ih _ i r h1 hf
    · exact ih _ i _ h1 ((applyAnalystUpdate_unresolvedFrozen _ _ _ _).mpr hf)

/-- A frozen unresolvable row is not selected by the pending query. -/
theorem unresolvedFrozen_not_pending (r : AnalystSnapshot)
    (hf : unresolvedFrozen r) : ∀ R, pendingAnalystPred R r = false := by
  intro R
  simp [pendingAnalystPred, hf.1]

/-- An evaluation run leaves a frozen unresolvable row untouched. -/
theorem evalAnalystRow_unresolvedFrozen (oracle : String → Int → Option ℚ)
    (R : Int) (r : AnalystSnapshot) (hf : unresolvedFrozen r) :
    evalAnalystRow oracle R r = r := by
  unfold evalAnalystRow
  rw [unresolvedFrozen_not_pending r hf R]
  simp

/-- Any pipeline operation keeps a frozen unresolvable row at its
position, frozen. -/
theorem applyOp_unresolvedFrozen (op : PipelineOp) (db : Db) (i : Nat)
    (r : AnalystSnapshot) (h : db.analyst[i]? = some r) (hf : unresolvedFrozen r) :
    ∃ r', (applyOp op db).analyst[i]? = some r' ∧ unresolvedFrozen r' := by
  rcases op with ⟨t, d, ratings, price, targets, fb⟩ | ⟨R, oracle⟩
  · exact snapshot_analyst_ratings_unresolvedFrozen ratings price t d db.analyst i r h hf
  · refine ⟨r, ?_, hf⟩
    show (db.analyst.map (evalAnalystRow oracle R))[i]? = some r
    rw [List.getElem?_map, h]
    simp [evalAnalystRow_unresolvedFrozen oracle R r hf]

/-- **C9.** Once an `AnalystSnapshot` row is unresolvable (with, as the
evaluation stage guarantees, null outcome fields), every later sequence of
capture and evaluation operations keeps that row unresolvable with null
outcome fields, and no evaluation run with any reference date ever selects
it again — even when the price provider is defined everywhere. -/
theorem unresolvable_is_terminal (db : Db) (i : Nat) (r : AnalystSnapshot)
    (hr : db.analyst[i]? = some r) (hu : r.is_unresolvable = true)
    (hn : analystOutcomeNone r) (ops : List PipelineOp) :
    ∃ r', (applyOps ops db).analyst[i]? = some r'
      ∧ r'.is_unresolvable = true
      ∧ analystOutcomeNone r'
      ∧ (∀ R, pendingAnalystPred R r' = false)
      ∧ (∀ R, r' ∉ list_pending_analyst_snapshots (applyOps ops db) R) := by
  have main : ∃ r', (applyOps ops db).analyst[i]? = some r' ∧ unresolvedFrozen r' := by
    induction ops generalizing db r with
    | nil => exact ⟨r, hr, hu, hn⟩
    | cons op ops ih =>
      rcases applyOp_unresolvedFrozen op db i r hr ⟨hu, hn⟩ with ⟨r1, h1, hf1⟩
      exact ih (applyOp op db) r1 h1 hf1.1 hf1.2
  rcases main with ⟨r', h1, hf⟩
  refine ⟨r', h1, hf.1, hf.2, unresolvedFrozen_not_pending r' hf, ?_⟩
  intro R hmem
  have := (List.mem_filter.mp hmem).2
  rw [unresolvedFrozen_not_pending r' hf R] at this
  exact Bool.false_ne_true this

/-- A concrete unresolvable row with null outcomes. -/
def sampleUnresolvableRow : AnalystSnapshot :=
  { samplePendingRow with is_unresolvable := true }

/-- Witness for C9: after a further evaluation run with a price available,
the unresolvable row is unchanged and still not selected. -/
theorem unresolvable_is_terminal_witness :
    (applyOps [PipelineOp.evaluate 400 (fun _ _ => some 5)]
        (Db.mk [sampleUnresolvableRow] [])).analyst[0]? = some sampleUnresolvableRow
    ∧ sampleUnresolvableRow ∉
        list_pending_analyst_snapshots
          (applyOps [PipelineOp.evaluate 400 (fun _ _ => some 5)]
            (Db.mk [sampleUnresolvableRow] [])) 400 := by
  have happ : (applyOps [PipelineOp.evaluate 400 (fun _ _ => some 5)]
      (Db.mk [sampleUnresolvableRow] [])).analyst[0]? = some sampleUnresolvableRow := by
    rfl
  obtain ⟨r', h1, _, _, _, h5⟩ :=
    unresolvable_is_terminal (Db.mk [sampleUnresolvableRow] []) 0 sampleUnresolvableRow
      rfl rfl ⟨rfl, rfl, rfl, rfl⟩ [PipelineOp.evaluate 400 (fun _ _ => some 5)]
  have heq : r' = sampleUnresolvableRow := by
    rw [happ] at h1
    exact Option.some.inj h1.symm
  exact ⟨happ, heq ▸ h5 400⟩

end StockPulse

namespace StockPulse

/-- Zeta-reduced unfolding of the dedup step. -/
theorem dedupeStep_eq (acc : List (String × RawRating)) (row : RawRating) :
    dedupeStep acc row =
      if rawFirm row == "" then acc
      else
        match acc.find? (fun e => e.1 == casefold (rawFirm row)) with
        | Option.none =>
          acc ++ [(casefold (rawFirm row), { row with firm := PyVal.str (rawFirm row) })]
        | some e =>
          if (_to_float e.2.price_target).isNone && (_to_float row.price_target).isSome then
            updateFirst (fun e2 => e2.1 == casefold (rawFirm row))
              (fun _ => (casefold (rawFirm row), { row with firm := PyVal.str (rawFirm row) })) acc
          else acc :=
  rfl

/-- The spec's example rows: same firm, one without a price target. -/
def cantorNoTarget : RawRating :=
  { firm := PyVal.str "Cantor Fitzgerald"
    analyst_name := PyVal.none
    action := PyVal.none
    rating := PyVal.str "Overweight"
    price_target := PyVal.none }

/-- The spec's example rows: same firm, with the `"$182"` price target. -/
def cantorWithTarget : RawRating :=
  { firm := PyVal.str "Cantor Fitzgerald"
    analyst_name := PyVal.none
    action := PyVal.none
    rating := PyVal.str "Overweight"
    price_target := PyVal.str "$182" }

/-- **C7.** Two raw rating rows whose firm names agree case-insensitively
collapse to one deduplicated entry; when exactly one of them carries a
parseable price target, that row's data wins (in either order); and on the
spec's example the surviving row parses to `price_target = 182`. -/
theorem firm_dedup_prefers_price_target (r1 r2 : RawRating)
    (h1 : rawFirm r1 ≠ "") (h2 : rawFirm r2 ≠ "")
    (hk : casefold (rawFirm r1) = casefold (rawFirm r2)) :
    (dedupeRatings [r1, r2]).length = 1
    ∧ (_to_float r1.price_target = Option.none → (_to_float r2.price_target).isSome = true →
        dedupeRatings [r1, r2]
          = [(casefold (rawFirm r2), { r2 with firm := PyVal.str (rawFirm r2) })])
    ∧ ((_to_float r1.price_target).isSome = true → _to_float r2.price_target = Option.none →
        dedupeRatings [r1, r2]
          = [(casefold (rawFirm r1), { r1 with firm := PyVal.str (rawFirm r1) })])
    ∧ (dedupeRatings [cantorNoTarget, cantorWithTarget]).map
        (fun e => (e.2.firm, _to_float e.2.price_target))
        = [(PyVal.str "Cantor Fitzgerald", some 182)] := by
  have hb1 : (rawFirm r1 == "") = false := by
    simpa using h1
  have hb2 : (rawFirm r2 == "") = false := by
    simpa using h2
  have e1 : dedupeStep [] r1
      = [(casefold (rawFirm r1), { r1 with firm := PyVal.str (rawFirm r1) })] := by
    rw [dedupeStep_eq, hb1]
    simp [List.find?]
  have hkey : ((casefold (rawFirm r1), { r1 with firm := PyVal.str (rawFirm r1) }).1
      == casefold (rawFirm r2)) = true := by
    simp [hk]
  have hfind : ([(casefold (rawFirm r1), { r1 with firm := PyVal.str (rawFirm r1) })].find?
        (fun e => e.1 == casefold (rawFirm r2)))
      = some (casefold (rawFirm r1), { r1 with firm := PyVal.str (rawFirm r1) }) :=
    List.find?_cons_of_pos _ hkey
  have hchain : dedupeRatings [r1, r2] = dedupeStep (dedupeStep [] r1) r2 := rfl
  by_cases hcond : ((_to_float r1.price_target).isNone
      && (_to_float r2.price_target).isSome) = true
  · have e2 : dedupeRatings [r1, r2]
        = [(casefold (rawFirm r2), { r2 with firm := PyVal.str (rawFirm r2) })] := by
      rw [hchain, e1, dedupeStep_eq, hb2]
      simp only [Bool.false_eq_true, if_false, hfind]
      rw [if_pos hcond]
      unfold updateFirst
      rw [if_pos hkey]
    refine ⟨by rw [e2]; rfl, fun _ _ => e2, fun hs hn => ?_, by decide⟩
    rw [Bool.and_eq_true] at hcond
    have hnone := Option.isNone_iff_eq_none.mp hcond.1
    rw [hnone] at hs
    exact absurd hs (by simp)
  · have e2 : dedupeRatings [r1, r2]
        = [(casefold (rawFirm r1), { r1 with firm := PyVal.str (rawFirm r1) })] := by
      rw [hchain, e1, dedupeStep_eq, hb2]
      simp only [Bool.false_eq_true, if_false, hfind]
      rw [if_neg hcond]
    refine ⟨by rw [e2]; rfl, fun hn hs => ?_, fun _ _ => e2, by decide⟩
    rw [Bool.and_eq_true] at hcond
    exact absurd ⟨by simp [hn], hs⟩ hcond

/-- Witness for C7 at the spec's example rows. -/
theorem firm_dedup_prefers_price_target_witness :
    (dedupeRatings [cantorNoTarget, cantorWithTarget]).length = 1
    ∧ dedupeRatings [cantorNoTarget, cantorWithTarget]
        = [(casefold (rawFirm cantorWithTarget),
            { cantorWithTarget with firm := PyVal.str (rawFirm cantorWithTarget) })] :=
  ⟨(firm_dedup_prefers_price_target cantorNoTarget cantorWithTarget
      (by decide) (by decide) (by decide)).1,
   (firm_dedup_prefers_price_target cantorNoTarget cantorWithTarget
      (by decide) (by decide) (by decide)).2.1 (by decide) (by decide)⟩

end StockPulse

namespace StockPulse

/-! ### Capture idempotence (C3) -/

/-- `str(row.get("firm") or "Unknown")`: the firm name under which the
upsert looks a deduplicated row up. -/
def rowFirm (row : RawRating) : String := pyStr (pyOr row.firm (PyVal.str "Unknown"))

/-- Every row of `l` matching `p` is a fixed point of `f`. -/
def settled {α : Type} (p : α → Bool) (f : α → α) (l : List α) : Prop :=
  ∀ x ∈ l, p x = true → f x = x

/-- The in-database unique constraints: at most one analyst row per
(ticker, snapshot_date, firm) and one consensus row per
(ticker, snapshot_date). -/
def uniqueSnapshotKeys (db : Db) : Prop :=
  (∀ (t : String) (d : Int) (f : String), db.analyst.countP (analystKeyMatch t d f) ≤ 1)
  ∧ (∀ (t : String) (d : Int), db.consensus.countP (consensusKeyMatch t d) ≤ 1)

/-- Updating the first match of an idempotent, match-preserving update on
a list with at most one match keeps the match count and settles every
match. -/
theorem updateFirst_count_settle {α : Type} (p : α → Bool) (f : α → α)
    (hpf : ∀ x, p (f x) = p x) (hff : ∀ x, p x = true → f (f x) = f x) :
    ∀ l : List α, l.countP p ≤ 1 →
      (updateFirst p f l).countP p = l.countP p
      ∧ settled p f (updateFirst p f l) := by
  intro l
  induction l with
  | nil => intro _; exact ⟨rfl, fun x hx => absurd hx (List.not_mem_nil x)⟩
  | cons a l ih =>
    intro hle
    by_cases ha : p a = true
    · have hl0 : l.countP p = 0 := by
        rw [List.countP_cons, if_pos ha] at hle
        omega
      have hxl : ∀ x ∈ l, ¬ p x = true := List.countP_eq_zero.mp hl0
      constructor
      · simp only [updateFirst, if_pos ha]
        rw [List.countP_cons, List.countP_cons, if_pos ha, if_pos (by rw [hpf]; exact ha)]
      · simp only [updateFirst, if_pos ha]
        intro x hx hpx
        rcases List.mem_cons.mp hx with h1 | h1
        · rw [h1]; exact hff a ha
        · exact absurd hpx (hxl x h1)
    · have hle' : l.countP p ≤ 1 := by
        rw [List.countP_cons, if_neg ha] at hle
        omega
      rcases ih hle' with ⟨hcount, hsettled⟩
      constructor
      · simp only [updateFirst, if_neg ha]
        rw [List.countP_cons, List.countP_cons, if_neg ha, hcount]
      · simp only [updateFirst, if_neg ha]
        intro x hx hpx
        rcases List.mem_cons.mp hx with h1 | h1
        · rw [h1] at hpx; exact absurd hpx ha
        · exact hsettled x h1 hpx

/-- The capture update preserves the key fields. -/
theorem analystKeyMatch_applyUpdate (t : String) (d : Int) (f : String)
    (cp : ℚ) (td : Int) (row : RawRating) (r : AnalystSnapshot) :
    analystKeyMatch t d f (applyAnalystUpdate cp td row r) = analystKeyMatch t d f r :=
  rfl

/-- The capture update is idempotent on a row. -/
theorem applyAnalystUpdate_idem (cp : ℚ) (td : Int) (row : RawRating)
    (r : AnalystSnapshot) :
    applyAnalystUpdate cp td row (applyAnalystUpdate cp td row r)
      = applyAnalystUpdate cp td row r :=
  rfl

/-- A freshly inserted row matches its own key. -/
theorem newAnalystRow_keyMatch (t : String) (d : Int) (f : String) (cp : ℚ)
    (td : Int) (row : RawRating) :
    analystKeyMatch t d f (newAnalystRow t d f cp td row) = true := by
  simp [analystKeyMatch, newAnalystRow]

/-- A fresh insert already carries the capture payload. -/
theorem applyAnalystUpdate_newRow (t : String) (d : Int) (cp : ℚ) (td : Int)
    (row : RawRating) :
    applyAnalystUpdate cp td row (newAnalystRow t d (rowFirm row) cp td row)
      = newAnalystRow t d (rowFirm row) cp td row :=
  rfl

/-- A row cannot match two different firms. -/
theorem analystKeyMatch_disjoint (t : String) (d : Int) (f f' : String)
    (hne : f ≠ f') (r : AnalystSnapshot) (h : analystKeyMatch t d f r = true) :
    analystKeyMatch t d f' r = false := by
  simp only [analystKeyMatch, Bool.and_eq_true, beq_iff_eq] at h
  simp only [analystKeyMatch, Bool.and_eq_false_iff, beq_eq_false_iff_ne]
  right
  rw [h.2]
  exact hne

/-- `upsertAnalystRow_eq` restated through `rowFirm`. -/
theorem upsertAnalystRow_eq2 (t : String) (d : Int) (cp : ℚ)
    (l : List AnalystSnapshot) (row : RawRating) :
    upsertAnalystRow t d cp l row =
      match l.find? (analystKeyMatch t d (rowFirm row)) with
      | some _ =>
        updateFirst (analystKeyMatch t d (rowFirm row)) (applyAnalystUpdate cp (d + 365) row) l
      | Option.none => l ++ [newAnalystRow t d (rowFirm row) cp (d + 365) row] :=
  rfl

/-- One upsert settles its own key: afterwards exactly one row matches,
and it carries the payload. -/
theorem upsertAnalystRow_settles (t : String) (d : Int) (cp : ℚ)
    (l : List AnalystSnapshot) (row : RawRating)
    (hle : l.countP (analystKeyMatch t d (rowFirm row)) ≤ 1) :
    (upsertAnalystRow t d cp l row).countP (analystKeyMatch t d (rowFirm row)) = 1
    ∧ settled (analystKeyMatch t d (rowFirm row)) (applyAnalystUpdate cp (d + 365) row)
        (upsertAnalystRow t d cp l row) := by
  rw [upsertAnalystRow_eq2]
  rcases hfind : l.find? (analystKeyMatch t d (rowFirm row)) with _ | x
  · have h0 : l.countP (analystKeyMatch t d (rowFirm row)) = 0 :=
      List.countP_eq_zero.mpr (List.find?_eq_none.mp hfind)
    constructor
    · rw [List.countP_append, h0, List.countP_cons]
      simp [newAnalystRow_keyMatch]
    · intro x hx hpx
      rcases List.mem_append.mp hx with h1 | h1
      · exact absurd hpx (List.countP_eq_zero.mp h0 x h1)
      · have : x = newAnalystRow t d (rowFirm row) cp (d + 365) row := by
          simpa using h1
        rw [this]
        exact applyAnalystUpdate_newRow t d cp (d + 365) row
  · have h1le : 1 ≤ l.countP (analystKeyMatch t d (rowFirm row)) := by
      rw [Nat.succ_le_iff]
      exact List.countP_pos_iff.mpr ⟨x, List.mem_of_find?_eq_some hfind, List.find?_some hfind⟩
    rcases updateFirst_count_settle (analystKeyMatch t d (rowFirm row))
        (applyAnalystUpdate cp (d + 365) row)
        (fun r => analystKeyMatch_applyUpdate t d (rowFirm row) cp (d + 365) row r)
        (fun r _ => applyAnalystUpdate_idem cp (d + 365) row r) l hle with ⟨hc, hs⟩
    have hone : (updateFirst (analystKeyMatch t d (rowFirm row))
        (applyAnalystUpdate cp (d + 365) row) l).countP
          (analystKeyMatch t d (rowFirm row)) = 1 := by
      rw [hc]; omega
    exact ⟨hone, hs⟩

end StockPulse

namespace StockPulse

/-- Upserting a row with a different firm neither changes the number of
rows matching a key nor disturbs its settledness. -/
theorem upsertAnalystRow_frame (t : String) (d : Int) (cp : ℚ)
    (l : List AnalystSnapshot) (row e : RawRating)
    (hne : rowFirm row ≠ rowFirm e) :
    (upsertAnalystRow t d cp l row).countP (analystKeyMatch t d (rowFirm e))
      = l.countP (analystKeyMatch t d (rowFirm e))
    ∧ (settled (analystKeyMatch t d (rowFirm e)) (applyAnalystUpdate cp (d + 365) e) l →
       settled (analystKeyMatch t d (rowFirm e)) (applyAnalystUpdate cp (d + 365) e)
         (upsertAnalystRow t d cp l row)) := by
  rw [upsertAnalystRow_eq2]
  rcases hfind : l.find? (analystKeyMatch t d (rowFirm row)) with _ | x
  · have hnew : analystKeyMatch t d (rowFirm e)
        (newAnalystRow t d (rowFirm row) cp (d + 365) row) = false := by
      simp only [analystKeyMatch, newAnalystRow, Bool.and_eq_false_iff, beq_eq_false_iff_ne]
      right
      exact hne
    constructor
    · rw [List.countP_append, List.countP_cons, hnew]
      simp
    · intro hs x hx hpx
      rcases List.mem_append.mp hx with h1 | h1
      · exact hs x h1 hpx
      · have : x = newAnalystRow t d (rowFirm row) cp (d + 365) row := by simpa using h1
        rw [this] at hpx
        rw [hnew] at hpx
        exact absurd hpx (by simp)
  · constructor
    · exact countP_updateFirst _ _ _
        (fun r => analystKeyMatch_applyUpdate t d (rowFirm e) cp (d + 365) row r) l
    · intro hs x hx hpx
      rcases mem_updateFirst _ _ _ _ hx with h1 | ⟨y, hy, hpy, hxy⟩
      · exact hs x h1 hpx
      · rw [hxy, analystKeyMatch_applyUpdate] at hpx
        have := analystKeyMatch_disjoint t d (rowFirm row) (rowFirm e) hne y hpy
        rw [this] at hpx
        exact absurd hpx (by simp)

/-- Folding upserts over rows with other firms preserves a key's count and
settledness. -/
theorem foldl_upsert_frame (t : String) (d : Int) (cp : ℚ) :
    ∀ (es : List RawRating) (l : List AnalystSnapshot) (e : RawRating),
      (∀ e' ∈ es, rowFirm e' ≠ rowFirm e) →
      (es.foldl (upsertAnalystRow t d cp) l).countP (analystKeyMatch t d (rowFirm e))
        = l.countP (analystKeyMatch t d (rowFirm e))
      ∧ (settled (analystKeyMatch t d (rowFirm e)) (applyAnalystUpdate cp (d + 365) e) l →
         settled (analystKeyMatch t d (rowFirm e)) (applyAnalystUpdate cp (d + 365) e)
           (es.foldl (upsertAnalystRow t d cp) l)) := by
  intro es
  induction es with
  | nil => intro l e _; exact ⟨rfl, fun hs => hs⟩
  | cons row es ih =>
    intro l e hne
    rw [List.foldl_cons]
    rcases upsertAnalystRow_frame t d cp l row e
        (hne row (List.mem_cons_self row es)) with ⟨hc1, hs1⟩
    rcases ih (upsertAnalystRow t d cp l row) e
        (fun e' he' => hne e' (List.mem_cons_of_mem row he')) with ⟨hc2, hs2⟩
    exact ⟨hc2.trans hc1, fun hs => hs2 (hs1 hs)⟩

/-- After the capture fold, every deduplicated firm has exactly one
matching row, and that row carries the firm's payload. -/
theorem foldl_upsert_settles (t : String) (d : Int) (cp : ℚ) :
    ∀ (es : List RawRating) (l : List AnalystSnapshot),
      (∀ e ∈ es, l.countP (analystKeyMatch t d (rowFirm e)) ≤ 1) →
      es.Pairwise (fun a b => rowFirm a ≠ rowFirm b) →
      ∀ e ∈ es,
        (es.foldl (upsertAnalystRow t d cp) l).countP (analystKeyMatch t d (rowFirm e)) = 1
        ∧ settled (analystKeyMatch t d (rowFirm e)) (applyAnalystUpdate cp (d + 365) e)
            (es.foldl (upsertAnalystRow t d cp) l) := by
  intro es
  induction es with
  | nil => intro l _ _ e he; exact absurd he (List.not_mem_nil e)
  | cons row es ih =>
    intro l hle hpw e he
    rw [List.foldl_cons]
    have hpwtail := List.pairwise_cons.mp hpw
    rcases List.mem_cons.mp he with h1 | h1
    · subst h1
      rcases upsertAnalystRow_settles t d cp l e
          (hle e (List.mem_cons_self e es)) with ⟨hc, hs⟩
      rcases foldl_upsert_frame t d cp es (upsertAnalystRow t d cp l e) e
          (fun e' he' => (hpwtail.1 e' he').symm) with ⟨hc2, hs2⟩
      exact ⟨hc2.trans hc, hs2 hs⟩
    · refine ih (upsertAnalystRow t d cp l row) ?_ hpwtail.2 e h1
      intro e' he'
      rw [(upsertAnalystRow_frame t d cp l row e' (hpwtail.1 e' he')).1]
      exact hle e' (List.mem_cons_of_mem row he')

/-- An upsert whose key already has a settled match changes nothing. -/
theorem upsertAnalystRow_id (t : String) (d : Int) (cp : ℚ)
    (l : List AnalystSnapshot) (row : RawRating)
    (hcount : 1 ≤ l.countP (analystKeyMatch t d (rowFirm row)))
    (hs : settled (analystKeyMatch t d (rowFirm row)) (applyAnalystUpdate cp (d + 365) row) l) :
    upsertAnalystRow t d cp l row = l := by
  rw [upsertAnalystRow_eq2]
  rcases hfind : l.find? (analystKeyMatch t d (rowFirm row)) with _ | x
  · exfalso
    have h0 : l.countP (analystKeyMatch t d (rowFirm row)) = 0 :=
      List.countP_eq_zero.mpr (List.find?_eq_none.mp hfind)
    omega
  · exact updateFirst_eq_of_settled _ _ l hs

/-- A second pass of the capture fold over settled keys is the identity. -/
theorem foldl_upsert_id (t : String) (d : Int) (cp : ℚ) :
    ∀ (es : List RawRating) (l : List AnalystSnapshot),
      (∀ e ∈ es, 1 ≤ l.countP (analystKeyMatch t d (rowFirm e))
        ∧ settled (analystKeyMatch t d (rowFirm e)) (applyAnalystUpdate cp (d + 365) e) l) →
      es.foldl (upsertAnalystRow t d cp) l = l := by
  intro es
  induction es with
  | nil => intro l _; rfl
  | cons row es ih =>
    intro l h
    rw [List.foldl_cons,
      upsertAnalystRow_id t d cp l row (h row (List.mem_cons_self row es)).1
        (h row (List.mem_cons_self row es)).2]
    exact ih l (fun e he => h e (List.mem_cons_of_mem row he))

end StockPulse

namespace StockPulse

/-- Replacing a match without changing its key keeps the key list. -/
theorem map_fst_updateFirst {κ α : Type} (p : κ × α → Bool) (f : κ × α → κ × α)
    (hf : ∀ x, p x = true → (f x).1 = x.1) :
    ∀ l : List (κ × α), (updateFirst p f l).map Prod.fst = l.map Prod.fst := by
  intro l
  induction l with
  | nil => rfl
  | cons a l ih =>
    by_cases h : p a = true
    · simp only [updateFirst, if_pos h, List.map_cons, hf a h]
    · simp only [updateFirst, if_neg h, List.map_cons, ih]

/-- Well-formedness of the dedup accumulator: every entry stores a
non-empty stripped firm string under its casefolded key, and keys are
distinct. -/
def dedupeWF (acc : List (String × RawRating)) : Prop :=
  (∀ e ∈ acc, ∃ f, e.2.firm = PyVal.str f ∧ f ≠ "" ∧ e.1 = casefold f)
  ∧ (acc.map Prod.fst).Nodup

/-- One dedup step preserves well-formedness. -/
theorem dedupeStep_wf (acc : List (String × RawRating)) (row : RawRating)
    (h : dedupeWF acc) : dedupeWF (dedupeStep acc row) := by
  rw [dedupeStep_eq]
  by_cases hb : (rawFirm row == "") = true
  · rw [if_pos hb]
    exact h
  · rw [if_neg hb]
    have hne : rawFirm row ≠ "" := by simpa using hb
    split
    next hfind =>
      constructor
      · intro e he
        rcases List.mem_append.mp he with h1 | h1
        · exact h.1 e h1
        · have he2 : e = (casefold (rawFirm row), { row with firm := PyVal.str (rawFirm row) }) := by
            simpa using h1
          exact ⟨rawFirm row, by rw [he2], hne, by rw [he2]⟩
      · rw [List.map_append]
        rw [List.nodup_append]
        refine ⟨h.2, by simp, ?_⟩
        intro a ha hamem
        have ha' : a = casefold (rawFirm row) := by simpa using hamem
        rcases List.mem_map.mp ha with ⟨e, he, hea⟩
        have := List.find?_eq_none.mp hfind e he
        exact this (by rw [hea, ha']; simp)
    next x hfind =>
      split
      · constructor
        · intro e he
          rcases mem_updateFirst _ _ _ _ he with h1 | ⟨y, _, _, hey⟩
          · exact h.1 e h1
          · exact ⟨rawFirm row, by rw [hey], hne, by rw [hey]⟩
        · rw [map_fst_updateFirst _ _ ?hk acc]
          · exact h.2
          case hk =>
            intro e hpe
            have : e.1 = casefold (rawFirm row) := by simpa using hpe
            rw [this]
      · exact h

/-- The dedup accumulator built by `_snapshot_analyst_ratings` is
well-formed. -/
theorem dedupeRatings_wf (ratings : List RawRating) : dedupeWF (dedupeRatings ratings) := by
  unfold dedupeRatings
  have base : dedupeWF [] := ⟨fun e he => absurd he (List.not_mem_nil e), List.nodup_nil⟩
  generalize hacc : ([] : List (String × RawRating)) = acc at base
  clear hacc
  induction ratings generalizing acc with
  | nil => exact base
  | cons row ratings ih =>
    rw [List.foldl_cons]
    exact ih (dedupeStep acc row) (dedupeStep_wf acc row base)

/-- A stored firm string resurfaces unchanged in the upsert lookup. -/
theorem rowFirm_str (row : RawRating) (f : String) (hf : row.firm = PyVal.str f)
    (hne : f ≠ "") : rowFirm row = f := by
  have hb : (f == "") = false := by simpa using hne
  simp [rowFirm, hf, pyOr, pyTruthy, hb, pyStr]

/-- The deduplicated entries have pairwise distinct upsert firms. -/
theorem dedupe_pairwise_rowFirm (ratings : List RawRating) :
    ((dedupeRatings ratings).map Prod.snd).Pairwise (fun a b => rowFirm a ≠ rowFirm b) := by
  have hwf := dedupeRatings_wf ratings
  have hkeys : (dedupeRatings ratings).Pairwise (fun a b => a.1 ≠ b.1) := by
    have := hwf.2
    rw [List.Nodup, List.pairwise_map] at this
    exact this
  rw [List.pairwise_map]
  refine hkeys.imp_of_mem ?_
  intro a b ha hb hne heq
  rcases hwf.1 a ha with ⟨fa, hfa, hfane, hka⟩
  rcases hwf.1 b hb with ⟨fb, hfb, hfbne, hkb⟩
  rw [rowFirm_str a.2 fa hfa hfane, rowFirm_str b.2 fb hfb hfbne] at heq
  rw [hka, hkb, heq] at hne
  exact hne rfl

/-- The consensus payload update preserves the key fields. -/
theorem consensusKeyMatch_applyUpdate (t : String) (d d' : Int)
    (tg : ConsensusTargets) (cp : ℚ) (r : ConsensusSnapshot) :
    consensusKeyMatch t d (applyConsensusUpdate d' tg cp r) = consensusKeyMatch t d r :=
  rfl

/-- The consensus payload update is idempotent on a row. -/
theorem applyConsensusUpdate_idem (d : Int) (tg : ConsensusTargets) (cp : ℚ)
    (r : ConsensusSnapshot) :
    applyConsensusUpdate d tg cp (applyConsensusUpdate d tg cp r)
      = applyConsensusUpdate d tg cp r :=
  rfl

/-- A fresh consensus insert matches its own key. -/
theorem newConsensusRow_keyMatch (t : String) (d : Int) (tg : ConsensusTargets)
    (cp : ℚ) : consensusKeyMatch t d (newConsensusRow t d tg cp) = true := by
  simp [consensusKeyMatch, newConsensusRow]

/-- A fresh consensus insert already carries the payload. -/
theorem applyConsensusUpdate_newRow (t : String) (d : Int)
    (tg : ConsensusTargets) (cp : ℚ) :
    applyConsensusUpdate d tg cp (newConsensusRow t d tg cp) = newConsensusRow t d tg cp :=
  rfl

/-- The consensus upsert settles its key. -/
theorem snapshot_consensus_settles (tg : ConsensusTargets) (fb : ℚ)
    (t : String) (d : Int) (l : List ConsensusSnapshot)
    (hle : l.countP (consensusKeyMatch t d) ≤ 1) :
    (snapshot_consensus tg fb t d l).countP (consensusKeyMatch t d) = 1
    ∧ settled (consensusKeyMatch t d)
        (applyConsensusUpdate d tg (consensusCurrentPrice tg fb))
        (snapshot_consensus tg fb t d l) := by
  rw [snapshot_consensus_eq]
  rcases hfind : l.find? (consensusKeyMatch t d) with _ | x
  · have h0 : l.countP (consensusKeyMatch t d) = 0 :=
      List.countP_eq_zero.mpr (List.find?_eq_none.mp hfind)
    constructor
    · rw [List.countP_append, h0, List.countP_cons]
      simp [newConsensusRow_keyMatch]
    · intro x hx hpx
      rcases List.mem_append.mp hx with h1 | h1
      · exact absurd hpx (List.countP_eq_zero.mp h0 x h1)
      · have : x = newConsensusRow t d tg (consensusCurrentPrice tg fb) := by simpa using h1
        rw [this]
        exact applyConsensusUpdate_newRow t d tg (consensusCurrentPrice tg fb)
  · have h1le : 1 ≤ l.countP (consensusKeyMatch t d) := by
      rw [Nat.succ_le_iff]
      exact List.countP_pos_iff.mpr ⟨x, List.mem_of_find?_eq_some hfind, List.find?_some hfind⟩
    rcases updateFirst_count_settle (consensusKeyMatch t d)
        (applyConsensusUpdate d tg (consensusCurrentPrice tg fb))
        (fun r => consensusKeyMatch_applyUpdate t d d tg (consensusCurrentPrice tg fb) r)
        (fun r _ => applyConsensusUpdate_idem d tg (consensusCurrentPrice tg fb) r) l hle
      with ⟨hc, hs⟩
    have hone : (updateFirst (consensusKeyMatch t d)
        (applyConsensusUpdate d tg (consensusCurrentPrice tg fb)) l).countP
          (consensusKeyMatch t d) = 1 := by
      rw [hc]; omega
    exact ⟨hone, hs⟩

/-- A consensus upsert over a settled key changes nothing. -/
theorem snapshot_consensus_id (tg : ConsensusTargets) (fb : ℚ) (t : String)
    (d : Int) (l : List ConsensusSnapshot)
    (hcount : 1 ≤ l.countP (consensusKeyMatch t d))
    (hs : settled (consensusKeyMatch t d)
      (applyConsensusUpdate d tg (consensusCurrentPrice tg fb)) l) :
    snapshot_consensus tg fb t d l = l := by
  rw [snapshot_consensus_eq]
  rcases hfind : l.find? (consensusKeyMatch t d) with _ | x
  · exfalso
    have h0 : l.countP (consensusKeyMatch t d) = 0 :=
      List.countP_eq_zero.mpr (List.find?_eq_none.mp hfind)
    omega
  · exact updateFirst_eq_of_settled _ _ l hs

end StockPulse

namespace StockPulse

/-- The capture fold written out. -/
theorem snapshot_analyst_ratings_eq_foldl (ratings : List RawRating) (cp : ℚ)
    (t : String) (d : Int) (l : List AnalystSnapshot) :
    snapshot_analyst_ratings ratings cp t d l
      = ((dedupeRatings ratings).map Prod.snd).foldl (upsertAnalystRow t d cp) l :=
  rfl

/-- Analyst capture is idempotent and leaves exactly one row per
deduplicated firm, on any list obeying the unique-key constraint. -/
theorem snapshot_analyst_ratings_idem (ratings : List RawRating) (cp : ℚ)
    (t : String) (d : Int) (l : List AnalystSnapshot)
    (hu : ∀ f : String, l.countP (analystKeyMatch t d f) ≤ 1) :
    snapshot_analyst_ratings ratings cp t d (snapshot_analyst_ratings ratings cp t d l)
      = snapshot_analyst_ratings ratings cp t d l
    ∧ (∀ e ∈ dedupeRatings ratings,
        (snapshot_analyst_ratings ratings cp t d l).countP
          (analystKeyMatch t d (rowFirm e.2)) = 1) := by
  have hsettle := foldl_upsert_settles t d cp ((dedupeRatings ratings).map Prod.snd) l
    (fun e _ => hu (rowFirm e)) (dedupe_pairwise_rowFirm ratings)
  constructor
  · rw [snapshot_analyst_ratings_eq_foldl, snapshot_analyst_ratings_eq_foldl]
    refine foldl_upsert_id t d cp ((dedupeRatings ratings).map Prod.snd) _ ?_
    intro e he
    rcases hsettle e he with ⟨hc, hs⟩
    exact ⟨le_of_eq hc.symm, hs⟩
  · intro e he
    have := (hsettle e.2 (List.mem_map_of_mem Prod.snd he)).1
    rw [← snapshot_analyst_ratings_eq_foldl] at this
    exact this

/-- **C3.** With the database unique-key constraints in force and fixed
provider data, running the capture stage for (ticker, date) a second time
leaves the database exactly as after the first run; after capture there is
exactly one `AnalystSnapshot` row per deduplicated firm and exactly one
`ConsensusSnapshot` row for the (ticker, date). -/
theorem capture_idempotent (db : Db) (t : String) (d : Int)
    (ratings : List RawRating) (price : ℚ) (targets : ConsensusTargets) (fb : ℚ)
    (hu : uniqueSnapshotKeys db) :
    applyOp (PipelineOp.capture t d ratings price targets fb)
        (applyOp (PipelineOp.capture t d ratings price targets fb) db)
      = applyOp (PipelineOp.capture t d ratings price targets fb) db
    ∧ (∀ e ∈ dedupeRatings ratings,
        (applyOp (PipelineOp.capture t d ratings price targets fb) db).analyst.countP
          (analystKeyMatch t d (rowFirm e.2)) = 1)
    ∧ (applyOp (PipelineOp.capture t d ratings price targets fb) db).consensus.countP
        (consensusKeyMatch t d) = 1 := by
  rcases snapshot_analyst_ratings_idem ratings price t d db.analyst
    (fun f => hu.1 t d f) with ⟨haidem, hacount⟩
  rcases snapshot_consensus_settles targets fb t d db.consensus (hu.2 t d) with ⟨hccount, hcs⟩
  have hcidem : snapshot_consensus targets fb t d (snapshot_consensus targets fb t d db.consensus)
      = snapshot_consensus targets fb t d db.consensus :=
    snapshot_consensus_id targets fb t d _ (le_of_eq hccount.symm) hcs
  refine ⟨?_, hacount, hccount⟩
  show Db.mk
      (snapshot_analyst_ratings ratings price t d (snapshot_analyst_ratings ratings price t d db.analyst))
      (snapshot_consensus targets fb t d (snapshot_consensus targets fb t d db.consensus))
    = Db.mk (snapshot_analyst_ratings ratings price t d db.analyst)
        (snapshot_consensus targets fb t d db.consensus)
  rw [haidem, hcidem]

/-- Witness for C3: a concrete second capture run is a no-op and row
counts are exactly one. -/
theorem capture_idempotent_witness :
    applyOp (PipelineOp.capture "AAPL" 0 [cantorNoTarget, cantorWithTarget] 150 emptyTargets 10)
        (applyOp (PipelineOp.capture "AAPL" 0 [cantorNoTarget, cantorWithTarget] 150 emptyTargets 10) Db.empty)
      = applyOp (PipelineOp.capture "AAPL" 0 [cantorNoTarget, cantorWithTarget] 150 emptyTargets 10) Db.empty
    ∧ (applyOp (PipelineOp.capture "AAPL" 0 [cantorNoTarget, cantorWithTarget] 150 emptyTargets 10)
        Db.empty).analyst.countP
          (analystKeyMatch "AAPL" 0 (rowFirm cantorWithTarget)) = 1
    ∧ (applyOp (PipelineOp.capture "AAPL" 0 [cantorNoTarget, cantorWithTarget] 150 emptyTargets 10)
        Db.empty).consensus.countP (consensusKeyMatch "AAPL" 0) = 1 := by
  have hu : uniqueSnapshotKeys Db.empty :=
    ⟨fun t d f => by simp [Db.empty], fun t d => by simp [Db.empty]⟩
  have h := capture_idempotent Db.empty "AAPL" 0 [cantorNoTarget, cantorWithTarget]
    150 emptyTargets 10 hu
  refine ⟨h.1, ?_, h.2.2⟩
  have hmem : ((casefold (rawFirm cantorWithTarget)),
      { cantorWithTarget with firm := PyVal.str (rawFirm cantorWithTarget) })
      ∈ dedupeRatings [cantorNoTarget, cantorWithTarget] := by decide
  have := h.2.1 _ hmem
  simpa using this

end StockPulse
